import Mathlib

/-!
Verification of the `react-bg-hooks` repository: a search/pagination state
engine (`useSearch`, `src/unnamed/part_000`) and a column rendering pipeline
(`useTable.tsx`).

The TypeScript sources are shallowly embedded: JavaScript values flowing
through the query payloads are modelled by the mutual inductive `JVal`
(numbers restricted to integers — no claim depends on fractional or IEEE
behaviour), JS objects by ordered key/value lists (`JMembers`, in enumeration
order), and the platform builtins used by the codec (`JSON.stringify`,
`JSON.parse`, `btoa`, `atob`, `encodeURIComponent`, `decodeURIComponent`)
by executable Lean functions faithful to their standard behaviour on the
value domain.  Fallible builtins return `Option`; a `none` that the source
does not catch is modelled as a thrown exception.
-/

namespace RBH

-- A JavaScript value as it can appear in a query payload: `undefined`,
-- `null`, booleans, numbers (modelled as integers), strings, arrays and plain
-- objects.  Arrays and objects are given explicit spine types so that all
-- recursions stay structural (and hence kernel-reducible).
mutual
inductive JVal where
  | jnull
  | jundef
  | jbool (b : Bool)
  | jnum (n : Int)
  | jstr (s : String)
  | jarr (elems : JList)
  | jobj (members : JMembers)
deriving DecidableEq

inductive JList where
  | nil
  | cons (hd : JVal) (tl : JList)
deriving DecidableEq

inductive JMembers where
  | nil
  | cons (key : String) (val : JVal) (tl : JMembers)
deriving DecidableEq
end

/-- A query payload: a JS object, i.e. key/value members in enumeration
order. -/
abbrev Payload := JMembers

namespace JMembers

/-- Ordinary list induction for the member-list spine of the mutual
inductive family (the `induction` tactic cannot use the mutual recursor
directly). -/
@[induction_eliminator]
theorem indOn {P : JMembers → Prop} (nil : P .nil)
    (cons : ∀ (key : String) (val : JVal) (tl : JMembers), P tl → P (.cons key val tl)) :
    ∀ ms, P ms
  | .nil => nil
  | .cons k v tl => cons k v tl (indOn nil cons tl)

/-- `Object.keys`-style first-match lookup (JS objects have unique keys, so
first match is the match). -/
def lookup (k : String) : JMembers → Option JVal
  | .nil => none
  | .cons k' v tl => if k' = k then some v else lookup k tl

/-- `k in o` for a JS object. -/
def hasKey (k : String) (ms : JMembers) : Bool :=
  (ms.lookup k).isSome

/-- Concatenation of member lists. -/
def append : JMembers → JMembers → JMembers
  | .nil, b => b
  | .cons k v tl, b => .cons k v (append tl b)

/-- First half of a JS object spread `\x7b...a, ...b\x7d`: `a`'s keys in
`a`'s order, values overridden by `b` where `b` has the key. -/
def overrideVals : JMembers → JMembers → JMembers
  | .nil, _ => .nil
  | .cons k v tl, b => .cons k ((b.lookup k).getD v) (overrideVals tl b)

/-- Second half of a spread: `b`'s members whose keys are new w.r.t. `a`,
in `b`'s order. -/
def dropKeys : JMembers → JMembers → JMembers
  | .nil, _ => .nil
  | .cons k v tl, a => if a.hasKey k then dropKeys tl a else .cons k v (dropKeys tl a)

/-- JS object spread `\x7b...a, ...b\x7d`: keys of `a` first (values from
`b` where present), then `b`'s new keys, preserving enumeration order. -/
def spread (a b : JMembers) : JMembers :=
  (a.overrideVals b).append (b.dropKeys a)

theorem lookup_append (k : String) (a b : JMembers) :
    (a.append b).lookup k = (a.lookup k).or (b.lookup k) := by
  induction a with
  | nil => simp [append, lookup]
  | cons k' v tl ih =>
    by_cases h : k' = k <;> simp [append, lookup, h, ih]

theorem lookup_overrideVals (k : String) (a b : JMembers) :
    (a.overrideVals b).lookup k =
      (a.lookup k).map (fun v => (b.lookup k).getD v) := by
  induction a with
  | nil => simp [overrideVals, lookup]
  | cons k' v tl ih =>
    by_cases h : k' = k <;> simp [overrideVals, lookup, h, ih]

theorem lookup_dropKeys (k : String) (b a : JMembers) :
    (b.dropKeys a).lookup k = if a.hasKey k then none else b.lookup k := by
  induction b with
  | nil => simp [dropKeys, lookup]
  | cons k' v tl ih =>
    by_cases hk : a.hasKey k'
    · by_cases h : k' = k
      · subst h; simp [dropKeys, hk, ih]
      · simp [dropKeys, hk, ih, lookup, h]
    · by_cases h : k' = k
      · subst h; simp [dropKeys, hk, lookup]
      · simp [dropKeys, hk, ih, lookup, h]

/-- Key-wise reading of a JS object spread: a key's value in
`\x7b...a, ...b\x7d` is `b`'s if `b` has the key, else `a`'s. -/
theorem lookup_spread (k : String) (a b : JMembers) :
    (a.spread b).lookup k = (b.lookup k).or (a.lookup k) := by
  unfold spread
  rw [lookup_append, lookup_overrideVals, lookup_dropKeys]
  cases ha : a.lookup k with
  | none =>
    have : a.hasKey k = false := by simp [hasKey, ha]
    simp [this]
  | some v =>
    have : a.hasKey k = true := by simp [hasKey, ha]
    cases hb : b.lookup k <;> simp [this]

end JMembers

/-- `isUsefulValue` (`part_000` lines 138–143): arrays are useful iff
nonempty; otherwise a value is useful iff it is not `undefined`, not `null`
and not the empty string. -/
def isUsefulValue : JVal → Bool
  | .jarr xs => !(xs = .nil)
  | .jundef => false
  | .jnull => false
  | .jstr s => !(s = "")
  | _ => true

/-- The filtering step of `encodeQueryData` (line 147–151): keep exactly the
members whose values are useful, in order. -/
def filterUseful : JMembers → JMembers
  | .nil => .nil
  | .cons k v tl =>
    if isUsefulValue v then .cons k v (filterUseful tl) else filterUseful tl

theorem filterUseful_idem (ms : JMembers) :
    filterUseful (filterUseful ms) = filterUseful ms := by
  induction ms with
  | nil => rfl
  | cons k v tl ih =>
    by_cases h : isUsefulValue v <;> simp [filterUseful, h, ih]

/-- If every member of a payload is useful, filtering keeps it unchanged. -/
def allUseful : JMembers → Bool
  | .nil => true
  | .cons _ v tl => isUsefulValue v && allUseful tl

theorem filterUseful_of_allUseful {ms : JMembers} (h : allUseful ms = true) :
    filterUseful ms = ms := by
  induction ms with
  | nil => rfl
  | cons k v tl ih =>
    simp only [allUseful, Bool.and_eq_true] at h
    simp [filterUseful, h.1, ih h.2]

/-! ### Percent coding: models of `encodeURIComponent` / `decodeURIComponent`

`encodeURIComponent` leaves the unreserved characters
`A–Z a–z 0–9 - _ . ! ~ * ' ( )` alone and replaces every other character by
the percent-coded bytes of its UTF-8 encoding.  `decodeURIComponent` undoes
this and throws a `URIError` on malformed input (modelled as `none`). -/

/-- Uppercase hex digit, as emitted by `encodeURIComponent`. -/
def hexDigitChar (n : Nat) : Char := "0123456789ABCDEF".data.getD n '0'

/-- Value of a hex digit (either case accepted on decode). -/
def hexVal (c : Char) : Option Nat :=
  if '0' ≤ c ∧ c ≤ '9' then some (c.toNat - 48)
  else if 'A' ≤ c ∧ c ≤ 'F' then some (c.toNat - 55)
  else if 'a' ≤ c ∧ c ≤ 'f' then some (c.toNat - 87)
  else none

/-- The UTF-8 bytes of a character (1–4 bytes; Lean `Char` is always a
Unicode scalar value, matching a well-formed JS string). -/
def utf8Bytes (c : Char) : List Nat :=
  let n := c.toNat
  if n < 0x80 then [n]
  else if n < 0x800 then [0xC0 + n / 64, 0x80 + n % 64]
  else if n < 0x10000 then [0xE0 + n / 4096, 0x80 + n / 64 % 64, 0x80 + n % 64]
  else [0xF0 + n / 262144, 0x80 + n / 4096 % 64, 0x80 + n / 64 % 64, 0x80 + n % 64]

/-- The characters `encodeURIComponent` leaves unescaped:
`A–Z a–z 0–9 - _ . ! ~ * ( )` and the apostrophe (codes given numerically). -/
def uriUnreserved (c : Char) : Bool :=
  let n := c.toNat
  (65 ≤ n && n ≤ 90) || (97 ≤ n && n ≤ 122) || (48 ≤ n && n ≤ 57)
    || n = 45 || n = 95 || n = 46 || n = 33 || n = 126 || n = 42
    || n = 39 || n = 40 || n = 41

/-- `%XY` for one byte. -/
def pctByte (b : Nat) : List Char := ['%', hexDigitChar (b / 16), hexDigitChar (b % 16)]

/-- Percent-encode the UTF-8 bytes of one character. -/
def pctBytes : List Nat → List Char
  | [] => []
  | b :: tl => pctByte b ++ pctBytes tl

/-- `encodeURIComponent` on a single character. -/
def encodeURIChar (c : Char) : List Char :=
  if uriUnreserved c then [c] else pctBytes (utf8Bytes c)

/-- `encodeURIComponent`, character list form. -/
def encodeURIList : List Char → List Char
  | [] => []
  | c :: tl => encodeURIChar c ++ encodeURIList tl

/-- `encodeURIComponent`. -/
def encodeURIComponentStr (s : String) : String := ⟨encodeURIList s.data⟩

/-- Read one `%XY` group, returning the byte value and the remaining
characters.  Anything else is malformed. -/
def readPct : List Char → Option (Nat × List Char)
  | p :: x :: y :: r =>
    if p = '%' then
      match hexVal x, hexVal y with
      | some a, some b => some (a * 16 + b, r)
      | _, _ => none
    else none
  | _ => none

/-- Read one complete UTF-8 percent run (1–4 `%XY` groups depending on the
lead byte), returning the decoded Unicode scalar value and the remaining
characters.  Malformed or non-scalar runs are `URIError`s (`none`).  (The
real decoder also rejects some overlong encodings; those inputs are produced
by no encoder and reached by no claim.) -/
def decodePctRun (l : List Char) : Option (Nat × List Char) :=
  match readPct l with
  | some (b1, r1) =>
    if b1 < 0x80 then some (b1, r1)
    else if b1 < 0xC0 then none
    else if b1 < 0xE0 then
      match readPct r1 with
      | some (b2, r2) =>
        if 0x80 ≤ b2 ∧ b2 < 0xC0 then
          let cp := (b1 - 0xC0) * 64 + (b2 - 0x80)
          if cp.isValidChar then some (cp, r2) else none
        else none
      | none => none
    else if b1 < 0xF0 then
      match readPct r1 with
      | some (b2, r2) =>
        match readPct r2 with
        | some (b3, r3) =>
          if (0x80 ≤ b2 ∧ b2 < 0xC0) ∧ (0x80 ≤ b3 ∧ b3 < 0xC0) then
            let cp := (b1 - 0xE0) * 4096 + (b2 - 0x80) * 64 + (b3 - 0x80)
            if cp.isValidChar then some (cp, r3) else none
          else none
        | none => none
      | none => none
    else if b1 < 0xF8 then
      match readPct r1 with
      | some (b2, r2) =>
        match readPct r2 with
        | some (b3, r3) =>
          match readPct r3 with
          | some (b4, r4) =>
            if (0x80 ≤ b2 ∧ b2 < 0xC0) ∧ (0x80 ≤ b3 ∧ b3 < 0xC0)
                ∧ (0x80 ≤ b4 ∧ b4 < 0xC0) then
              let cp := (b1 - 0xF0) * 262144 + (b2 - 0x80) * 4096
                + (b3 - 0x80) * 64 + (b4 - 0x80)
              if cp.isValidChar then some (cp, r4) else none
            else none
          | none => none
        | none => none
      | none => none
    else none
  | none => none

/-- `decodeURIComponent` worker: literal characters pass through, `%` starts
a UTF-8 percent run.  Fuelled (each step consumes at least one character, so
`length + 1` fuel always suffices); fuel keeps the recursion structural and
hence kernel-reducible. -/
def decURIAux : Nat → List Char → Option (List Char)
  | 0, _ => none
  | _ + 1, [] => some []
  | f + 1, c :: rest =>
    if c = '%' then
      match decodePctRun (c :: rest) with
      | some (cp, r) => (decURIAux f r).map (fun tl => Char.ofNat cp :: tl)
      | none => none
    else (decURIAux f rest).map (fun tl => c :: tl)

/-- `decodeURIComponent`, character list form (throwing modelled as
`none`). -/
def decodeURIList (l : List Char) : Option (List Char) :=
  decURIAux (l.length + 1) l

/-- `decodeURIComponent` (throwing modelled as `none`). -/
def decodeURIComponentStr (s : String) : Option String :=
  (decodeURIList s.data).map (fun l => ⟨l⟩)

theorem hexVal_hexDigitChar : ∀ n < 16, hexVal (hexDigitChar n) = some n := by decide

theorem hexVal_hexDigitChar' (n : Nat) (h : n < 16) : hexVal (hexDigitChar n) = some n :=
  hexVal_hexDigitChar n h

theorem uriUnreserved_ne_pct {c : Char} (h : uriUnreserved c = true) : c ≠ '%' := by
  intro hc; subst hc; exact absurd h (by decide)

theorem char_toNat_lt (c : Char) : c.toNat < 0x110000 := by
  have hval : c.toNat.isValidChar := c.valid
  rcases hval with h | h <;> omega

theorem pctBytes_cons (b : Nat) (bs : List Nat) (r : List Char) :
    pctBytes (b :: bs) ++ r
      = '%' :: hexDigitChar (b / 16) :: hexDigitChar (b % 16) :: (pctBytes bs ++ r) := by
  simp [pctBytes, pctByte]

theorem utf8Bytes_ne_nil (c : Char) : ∃ b bs, utf8Bytes c = b :: bs := by
  unfold utf8Bytes
  dsimp only
  split_ifs <;> exact ⟨_, _, rfl⟩

theorem readPct_pctByte (b : Nat) (r : List Char) (h : b < 256) :
    readPct (pctByte b ++ r) = some (b, r) := by
  simp only [pctByte, List.cons_append, List.nil_append]
  rw [readPct, if_pos rfl,
    hexVal_hexDigitChar' _ (by omega), hexVal_hexDigitChar' _ (by omega)]
  simp only [Option.some.injEq, Prod.mk.injEq, and_true]
  omega

/-- `decodePctRun` consumes exactly the percent-coded UTF-8 bytes of one
character and returns its scalar value. -/
theorem decodePctRun_utf8 (c : Char) (rest : List Char) :
    decodePctRun (pctBytes (utf8Bytes c) ++ rest) = some (c.toNat, rest) := by
  have hval : c.toNat.isValidChar := c.valid
  have hlt : c.toNat < 0x110000 := char_toNat_lt c
  rw [utf8Bytes]
  by_cases h1 : c.toNat < 0x80
  · simp only [if_pos h1]
    rw [show pctBytes [c.toNat] ++ rest = pctByte c.toNat ++ rest by simp [pctBytes]]
    rw [decodePctRun, readPct_pctByte _ _ (by omega)]
    dsimp only
    simp only [if_pos h1]
  · by_cases h2 : c.toNat < 0x800
    · simp only [if_neg h1, if_pos h2]
      rw [show pctBytes [0xC0 + c.toNat / 64, 0x80 + c.toNat % 64] ++ rest
          = pctByte (0xC0 + c.toNat / 64) ++ (pctByte (0x80 + c.toNat % 64) ++ rest)
        by simp [pctBytes]]
      rw [decodePctRun, readPct_pctByte _ _ (by omega)]
      dsimp only
      rw [if_neg (by omega), if_neg (by omega), if_pos (by omega)]
      rw [readPct_pctByte _ _ (by omega)]
      dsimp only
      rw [if_pos (by constructor <;> omega)]
      have e : (0xC0 + c.toNat / 64 - 0xC0) * 64 + (0x80 + c.toNat % 64 - 0x80)
          = c.toNat := by omega
      simp only [e, if_pos hval]
    · by_cases h3 : c.toNat < 0x10000
      · simp only [if_neg h1, if_neg h2, if_pos h3]
        rw [show pctBytes [0xE0 + c.toNat / 4096, 0x80 + c.toNat / 64 % 64,
              0x80 + c.toNat % 64] ++ rest
            = pctByte (0xE0 + c.toNat / 4096) ++ (pctByte (0x80 + c.toNat / 64 % 64)
              ++ (pctByte (0x80 + c.toNat % 64) ++ rest)) by simp [pctBytes]]
        rw [decodePctRun, readPct_pctByte _ _ (by omega)]
        dsimp only
        rw [if_neg (by omega), if_neg (by omega), if_neg (by omega), if_pos (by omega)]
        rw [readPct_pctByte _ _ (by omega)]
        dsimp only
        rw [readPct_pctByte _ _ (by omega)]
        dsimp only
        rw [if_pos (by constructor <;> constructor <;> omega)]
        have e : (0xE0 + c.toNat / 4096 - 0xE0) * 4096
            + (0x80 + c.toNat / 64 % 64 - 0x80) * 64
            + (0x80 + c.toNat % 64 - 0x80) = c.toNat := by omega
        simp only [e, if_pos hval]
      · simp only [if_neg h1, if_neg h2, if_neg h3]
        rw [show pctBytes [0xF0 + c.toNat / 262144, 0x80 + c.toNat / 4096 % 64,
              0x80 + c.toNat / 64 % 64, 0x80 + c.toNat % 64] ++ rest
            = pctByte (0xF0 + c.toNat / 262144) ++ (pctByte (0x80 + c.toNat / 4096 % 64)
              ++ (pctByte (0x80 + c.toNat / 64 % 64)
                ++ (pctByte (0x80 + c.toNat % 64) ++ rest))) by simp [pctBytes]]
        rw [decodePctRun, readPct_pctByte _ _ (by omega)]
        dsimp only
        rw [if_neg (by omega), if_neg (by omega), if_neg (by omega),
          if_neg (by omega), if_pos (by omega)]
        rw [readPct_pctByte _ _ (by omega)]
        dsimp only
        rw [readPct_pctByte _ _ (by omega)]
        dsimp only
        rw [readPct_pctByte _ _ (by omega)]
        dsimp only
        rw [if_pos (by refine ⟨⟨?_, ?_⟩, ⟨?_, ?_⟩, ?_, ?_⟩ <;> omega)]
        have e : (0xF0 + c.toNat / 262144 - 0xF0) * 262144
            + (0x80 + c.toNat / 4096 % 64 - 0x80) * 4096
            + (0x80 + c.toNat / 64 % 64 - 0x80) * 64
            + (0x80 + c.toNat % 64 - 0x80) = c.toNat := by omega
        simp only [e, if_pos hval]

/-- Worker stepping rule: one character's percent-encoding costs one unit of
fuel and decodes back to that character. -/
theorem decURIAux_encodeURIChar (f : Nat) (c : Char) (rest : List Char) :
    decURIAux (f + 1) (encodeURIChar c ++ rest) =
      (decURIAux f rest).map (fun tl => c :: tl) := by
  by_cases hu : uriUnreserved c
  · have hc : ¬ c = '%' := uriUnreserved_ne_pct hu
    rw [encodeURIChar, if_pos hu]
    simp only [List.cons_append, List.nil_append]
    rw [decURIAux, if_neg hc]
  · rw [encodeURIChar, if_neg (by simp [hu])]
    obtain ⟨b, bs, hbs⟩ := utf8Bytes_ne_nil c
    rw [hbs, pctBytes_cons, decURIAux, if_pos rfl, ← pctBytes_cons, ← hbs,
      decodePctRun_utf8]
    simp [Char.ofNat_toNat]

/-- Each encoded character costs exactly one unit of fuel, so a whole
encoded list costs its length. -/
theorem decURIAux_encodeURIList (l rest : List Char) (f : Nat) :
    decURIAux (l.length + f) (encodeURIList l ++ rest) =
      (decURIAux f rest).map (fun tl => l ++ tl) := by
  induction l generalizing f with
  | nil =>
    simp only [encodeURIList, List.nil_append, List.length_nil, Nat.zero_add]
    cases decURIAux f rest <;> simp
  | cons c tl ih =>
    have hf : (c :: tl).length + f = (tl.length + f) + 1 := by
      simp [List.length_cons]; omega
    rw [hf, encodeURIList, List.append_assoc, decURIAux_encodeURIChar, ih]
    cases decURIAux f rest <;> simp

/-- Every character's encoding is at least one character long. -/
theorem encodeURIList_length (l : List Char) : l.length ≤ (encodeURIList l).length := by
  induction l with
  | nil => simp [encodeURIList]
  | cons c tl ih =>
    rw [encodeURIList, List.length_append]
    have : 1 ≤ (encodeURIChar c).length := by
      rw [encodeURIChar]
      by_cases hu : uriUnreserved c
      · simp [hu]
      · obtain ⟨b, bs, hbs⟩ := utf8Bytes_ne_nil c
        simp [hu, hbs, pctBytes, pctByte]
    simp only [List.length_cons]
    omega

/-- Percent-coding round-trip: `decodeURIComponent (encodeURIComponent s) = s`. -/
theorem decodeURIList_encode (l : List Char) :
    decodeURIList (encodeURIList l) = some l := by
  unfold decodeURIList
  obtain ⟨k, hk⟩ : ∃ k, (encodeURIList l).length + 1 = l.length + (k + 1) :=
    ⟨(encodeURIList l).length - l.length, by have := encodeURIList_length l; omega⟩
  rw [hk, ← List.append_nil (encodeURIList l), decURIAux_encodeURIList]
  rw [show decURIAux (k + 1) [] = some [] from rfl]
  simp

/-- A list without `%` decodes to itself (every character is literal). -/
theorem decURIAux_of_no_pct (l : List Char) (f : Nat) (hf : l.length < f)
    (h : ∀ c ∈ l, c ≠ '%') : decURIAux f l = some l := by
  induction l generalizing f with
  | nil =>
    cases f with
    | zero => omega
    | succ f => rfl
  | cons c tl ih =>
    cases f with
    | zero => omega
    | succ f =>
      have hc : ¬ c = '%' := h c (by simp)
      rw [decURIAux, if_neg hc,
        ih f (by simp at hf ⊢; omega) (fun c' hc' => h c' (by simp [hc']))]
      rfl

/-- A string without `%` decodes to itself. -/
theorem decodeURIList_of_no_pct (l : List Char) (h : ∀ c ∈ l, c ≠ '%') :
    decodeURIList l = some l :=
  decURIAux_of_no_pct l (l.length + 1) (by omega) h

/-- Unreserved characters are ASCII. -/
theorem uriUnreserved_ascii {c : Char} (h : uriUnreserved c = true) : c.toNat < 128 := by
  simp only [uriUnreserved, Bool.or_eq_true, Bool.and_eq_true, decide_eq_true_eq] at h
  omega

/-- UTF-8 bytes are bytes. -/
theorem utf8Bytes_lt (c : Char) : ∀ b ∈ utf8Bytes c, b < 256 := by
  have hlt : c.toNat < 0x110000 := char_toNat_lt c
  unfold utf8Bytes
  dsimp only
  split_ifs <;> intro b hb <;> simp_all <;> omega

theorem hexDigitChar_ascii : ∀ n < 16, (hexDigitChar n).toNat < 128 := by decide

/-- `encodeURIComponent` output is pure ASCII (which is why the source's
`btoa(encodeURIComponent(...))` never hits `btoa`'s non-Latin-1 error). -/
theorem encodeURIList_ascii (l : List Char) : ∀ a ∈ encodeURIList l, a.toNat < 128 := by
  induction l with
  | nil => simp [encodeURIList]
  | cons c tl ih =>
    intro a ha
    rw [encodeURIList] at ha
    rcases List.mem_append.1 ha with h | h
    · rw [encodeURIChar] at h
      by_cases hu : uriUnreserved c
      · rw [if_pos hu] at h
        simp only [List.mem_singleton] at h
        subst h
        exact uriUnreserved_ascii hu
      · rw [if_neg hu] at h
        have hbytes := utf8Bytes_lt c
        generalize hbs : utf8Bytes c = bs at h hbytes
        clear hbs hu
        induction bs with
        | nil => simp [pctBytes] at h
        | cons b bs ihb =>
          rw [pctBytes] at h
          rcases List.mem_append.1 h with h' | h'
          · have hb : b < 256 := hbytes b (by simp)
            simp only [pctByte, List.mem_cons, List.not_mem_nil, or_false] at h'
            rcases h' with h' | h' | h'
            · subst h'; decide
            · subst h'; exact hexDigitChar_ascii _ (by omega)
            · subst h'; exact hexDigitChar_ascii _ (by omega)
          · exact ihb h' (fun x hx => hbytes x (by simp [hx]))
    · exact ih a h

/-! ### Base64: models of `btoa` / `atob`

`btoa` reads a Latin-1 (code units < 256) string as bytes and emits base64;
`atob` decodes, throwing on malformed input (modelled as `none`).  The
source always applies `btoa` to `encodeURIComponent` output, which is pure
ASCII (`encodeURIList_ascii`), so `btoa`'s own range error is unreachable
and the model keeps it total. -/

/-- The base64 alphabet. -/
def b64chr (n : Nat) : Char :=
  "ABCDEFGHIJKLMNOPQRSTUVWXYZabcdefghijklmnopqrstuvwxyz0123456789+/".data.getD n 'A'

/-- Position of a character in the base64 alphabet. -/
def b64val (c : Char) : Option Nat :=
  List.indexOf? c
    "ABCDEFGHIJKLMNOPQRSTUVWXYZabcdefghijklmnopqrstuvwxyz0123456789+/".data

/-- `btoa` on a byte list: 3 bytes become 4 sextet characters, with `=`
padding closing a 1- or 2-byte tail. -/
def b64encode : List Nat → List Char
  | [] => []
  | [x] => [b64chr (x / 4), b64chr (x % 4 * 16), '=', '=']
  | [x, y] => [b64chr (x / 4), b64chr (x % 4 * 16 + y / 16), b64chr (y % 16 * 4), '=']
  | x :: y :: z :: rest =>
    b64chr (x / 4) :: b64chr (x % 4 * 16 + y / 16) :: b64chr (y % 16 * 4 + z / 64)
      :: b64chr (z % 64) :: b64encode rest

/-- `atob` on a character list: blocks of four sextet characters, the last
block optionally `=`-padded; anything else is malformed (`none`). -/
def b64decode : List Char → Option (List Nat)
  | [] => some []
  | c1 :: c2 :: c3 :: c4 :: rest =>
    match b64val c1, b64val c2 with
    | some a, some b =>
      if c3 = '=' then
        if c4 = '=' ∧ rest = [] then some [a * 4 + b / 16] else none
      else
        match b64val c3 with
        | some c =>
          if c4 = '=' then
            if rest = [] then some [a * 4 + b / 16, b % 16 * 16 + c / 4] else none
          else
            match b64val c4 with
            | some d =>
              (b64decode rest).map
                (fun tl => (a * 4 + b / 16) :: (b % 16 * 16 + c / 4)
                  :: (c % 4 * 64 + d) :: tl)
            | none => none
        | none => none
    | _, _ => none
  | _ => none

theorem b64val_b64chr : ∀ n < 64, b64val (b64chr n) = some n := by decide

theorem b64val_b64chr' (n : Nat) (h : n < 64) : b64val (b64chr n) = some n :=
  b64val_b64chr n h

theorem b64chr_ne_padding : ∀ n, b64chr n ≠ '=' := by
  intro n
  rcases Nat.lt_or_ge n 64 with h | h
  · revert h; revert n; decide
  · rw [b64chr, List.getD_eq_default _ _ (by simpa using h)]
    decide

theorem b64chr_ne_pct : ∀ n, b64chr n ≠ '%' := by
  intro n
  rcases Nat.lt_or_ge n 64 with h | h
  · revert h; revert n; decide
  · rw [b64chr, List.getD_eq_default _ _ (by simpa using h)]
    decide

/-- `btoa` output never contains `%` (so the outer `decodeURIComponent` in
`decodeQueryData` is the identity on it). -/
theorem b64encode_no_pct : ∀ bs, ∀ ch ∈ b64encode bs, ch ≠ '%'
  | [] => by simp [b64encode]
  | [x] => by
    simp only [b64encode, List.mem_cons, List.not_mem_nil, or_false]
    rintro ch (rfl | rfl | rfl | rfl) <;> first | exact b64chr_ne_pct _ | decide
  | [x, y] => by
    simp only [b64encode, List.mem_cons, List.not_mem_nil, or_false]
    rintro ch (rfl | rfl | rfl | rfl) <;> first | exact b64chr_ne_pct _ | decide
  | x :: y :: z :: rest => by
    simp only [b64encode, List.mem_cons]
    rintro ch (rfl | rfl | rfl | rfl | h)
    · exact b64chr_ne_pct _
    · exact b64chr_ne_pct _
    · exact b64chr_ne_pct _
    · exact b64chr_ne_pct _
    · exact b64encode_no_pct rest ch h

/-- Base64 round-trip on byte lists. -/
theorem b64decode_encode : ∀ bs : List Nat, (∀ b ∈ bs, b < 256) →
    b64decode (b64encode bs) = some bs
  | [] => fun _ => rfl
  | [x] => fun h => by
    have hx : x < 256 := h x (by simp)
    rw [b64encode, b64decode]
    rw [b64val_b64chr' _ (by omega), b64val_b64chr' _ (by omega)]
    dsimp only
    rw [if_pos rfl, if_pos ⟨rfl, rfl⟩]
    have : x / 4 * 4 + x % 4 * 16 / 16 = x := by omega
    rw [this]
  | [x, y] => fun h => by
    have hx : x < 256 := h x (by simp)
    have hy : y < 256 := h y (by simp)
    rw [b64encode, b64decode]
    rw [b64val_b64chr' _ (by omega), b64val_b64chr' _ (by omega),
      b64val_b64chr' _ (by omega)]
    dsimp only
    rw [if_neg (b64chr_ne_padding _), if_pos rfl, if_pos rfl]
    have e1 : x / 4 * 4 + (x % 4 * 16 + y / 16) / 16 = x := by omega
    have e2 : (x % 4 * 16 + y / 16) % 16 * 16 + y % 16 * 4 / 4 = y := by omega
    rw [e1, e2]
  | x :: y :: z :: rest => fun h => by
    have hx : x < 256 := h x (by simp)
    have hy : y < 256 := h y (by simp)
    have hz : z < 256 := h z (by simp)
    rw [b64encode]
    rcases hr : b64encode rest with _ | ⟨e1, etl⟩
    · -- rest encoded to []: only when rest = []
      have hrest : rest = [] := by
        cases rest with
        | nil => rfl
        | cons r1 rtl =>
          exfalso
          cases rtl with
          | nil => simp [b64encode] at hr
          | cons r2 rtl2 =>
            cases rtl2 with
            | nil => simp [b64encode] at hr
            | cons r3 rtl3 => simp [b64encode] at hr
      subst hrest
      rw [b64decode]
      rw [b64val_b64chr' _ (by omega), b64val_b64chr' _ (by omega),
        b64val_b64chr' _ (by omega), b64val_b64chr' _ (by omega)]
      dsimp only
      rw [if_neg (b64chr_ne_padding _), if_neg (b64chr_ne_padding _)]
      rw [show b64decode [] = some [] from rfl]
      have e1 : x / 4 * 4 + (x % 4 * 16 + y / 16) / 16 = x := by omega
      have e2 : (x % 4 * 16 + y / 16) % 16 * 16 + (y % 16 * 4 + z / 64) / 4 = y := by
        omega
      have e3 : (y % 16 * 4 + z / 64) % 4 * 64 + z % 64 = z := by omega
      rw [e1, e2, e3]
      rfl
    · rw [← hr, b64decode]
      rw [b64val_b64chr' _ (by omega), b64val_b64chr' _ (by omega),
        b64val_b64chr' _ (by omega), b64val_b64chr' _ (by omega)]
      dsimp only
      rw [if_neg (b64chr_ne_padding _), if_neg (b64chr_ne_padding _)]
      rw [b64decode_encode rest (fun b hb => h b (by simp [hb]))]
      have e1 : x / 4 * 4 + (x % 4 * 16 + y / 16) / 16 = x := by omega
      have e2 : (x % 4 * 16 + y / 16) % 16 * 16 + (y % 16 * 4 + z / 64) / 4 = y := by
        omega
      have e3 : (y % 16 * 4 + z / 64) % 4 * 64 + z % 64 = z := by omega
      rw [e1, e2, e3]
      rfl

/-- `btoa` (total model; see section comment). -/
def btoaStr (s : String) : String := ⟨b64encode (s.data.map Char.toNat)⟩

/-- `atob` (throwing modelled as `none`). -/
def atobStr (s : String) : Option String :=
  (b64decode s.data).map (fun bs => ⟨bs.map Char.ofNat⟩)

/-- `atob (btoa s) = s` for Latin-1 strings. -/
theorem atobStr_btoaStr (s : String) (h : ∀ c ∈ s.data, c.toNat < 256) :
    atobStr (btoaStr s) = some s := by
  rw [atobStr, btoaStr]
  rw [b64decode_encode _ (by
    intro b hb
    obtain ⟨c, hc, rfl⟩ := List.mem_map.1 hb
    exact h c hc)]
  have hid : ∀ l : List Char, (l.map Char.toNat).map Char.ofNat = l := by
    intro l
    induction l with
    | nil => rfl
    | cons c tl ih => simp [Char.ofNat_toNat, ih]
  cases s with
  | mk data => simp [hid]

/-! ### JSON: models of `JSON.stringify` / `JSON.parse`

`JSON.stringify` on the payload object: members with `undefined` values are
omitted, `undefined` array elements print as `null`, strings are quoted and
escaped, numbers print in decimal (integers in this model).  `JSON.parse` is
a fuelled recursive-descent parser over exactly that grammar (whitespace
never occurs in `stringify` output and is not consumed; fractional
exponents likewise — numbers are integers throughout the model). -/

/-- Opening brace character (written numerically). -/
def lcur : Char := Char.ofNat 123

/-- Closing brace character (written numerically). -/
def rcur : Char := Char.ofNat 125

/-- `'0'`–`'9'` for a digit value. -/
def digitCh (d : Nat) : Char := Char.ofNat (48 + d)

/-- Decimal printing of a natural number, fuelled (`n + 1` fuel always
suffices). -/
def natToCharsF : Nat → Nat → List Char
  | 0, _ => []
  | f + 1, n => if n < 10 then [digitCh n] else natToCharsF f (n / 10) ++ [digitCh (n % 10)]

/-- Decimal printing of a natural number. -/
def natToChars (n : Nat) : List Char := natToCharsF (n + 1) n

/-- Decimal printing of an integer (`-` sign for negatives). -/
def intToChars (i : Int) : List Char :=
  if i < 0 then '-' :: natToChars i.natAbs else natToChars i.natAbs

/-- Lowercase hex digit (as in `JSON.stringify`'s `\u00xx` escapes). -/
def hexDigitCharLower (n : Nat) : Char := "0123456789abcdef".data.getD n '0'

/-- `JSON.stringify` string escaping for one character. -/
def escapeChar (c : Char) : List Char :=
  if c = '"' then ['\\', '"']
  else if c = '\\' then ['\\', '\\']
  else if c.toNat = 8 then ['\\', 'b']
  else if c.toNat = 9 then ['\\', 't']
  else if c.toNat = 10 then ['\\', 'n']
  else if c.toNat = 12 then ['\\', 'f']
  else if c.toNat = 13 then ['\\', 'r']
  else if c.toNat < 32 then
    ['\\', 'u', '0', '0', hexDigitCharLower (c.toNat / 16), hexDigitCharLower (c.toNat % 16)]
  else [c]

def escapeList : List Char → List Char
  | [] => []
  | c :: tl => escapeChar c ++ escapeList tl

/-- A quoted, escaped JSON string literal. -/
def quoteStr (s : String) : List Char := '"' :: escapeList s.data ++ ['"']

mutual
/-- `JSON.stringify` of one value (at a position where it is printed:
top-level `undefined` is handled by the callers, array-element `undefined`
prints as `null`, object members with `undefined` are skipped by
`stringifyMembers`). -/
def stringifyVal : JVal → List Char
  | .jnull => ['n', 'u', 'l', 'l']
  | .jundef => ['n', 'u', 'l', 'l']
  | .jbool b => if b then ['t', 'r', 'u', 'e'] else ['f', 'a', 'l', 's', 'e']
  | .jnum i => intToChars i
  | .jstr s => quoteStr s
  | .jarr .nil => ['[', ']']
  | .jarr (.cons v tl) => '[' :: stringifyVal v ++ stringifyElemsRest tl
  | .jobj ms => lcur :: stringifyMembers ms false

/-- Remaining array elements, each preceded by `,`, then the closing `]`. -/
def stringifyElemsRest : JList → List Char
  | .nil => [']']
  | .cons v tl => ',' :: stringifyVal v ++ stringifyElemsRest tl

/-- Object members (with the closing brace); members whose value is
`undefined` are omitted, as `JSON.stringify` does.  `started` records
whether a member has already been printed (for the comma). -/
def stringifyMembers : JMembers → Bool → List Char
  | .nil, _ => [rcur]
  | .cons k v tl, started =>
    if v = .jundef then stringifyMembers tl started
    else
      (if started then [','] else []) ++ quoteStr k ++ ':' :: stringifyVal v
        ++ stringifyMembers tl true
end

/-- `JSON.stringify` of the (object-valued) query payload. -/
def jsonStringifyObj (ms : JMembers) : String := ⟨stringifyVal (.jobj ms)⟩

mutual
/-- No `undefined` anywhere inside: the subdomain on which
`JSON.parse ∘ JSON.stringify` is the identity. -/
def jsonOkV : JVal → Bool
  | .jundef => false
  | .jarr xs => jsonOkL xs
  | .jobj ms => jsonOkM ms
  | _ => true

def jsonOkL : JList → Bool
  | .nil => true
  | .cons v tl => jsonOkV v && jsonOkL tl

def jsonOkM : JMembers → Bool
  | .nil => true
  | .cons _ v tl => jsonOkV v && jsonOkM tl
end

mutual
/-- Parser fuel needed for a value (bounded by its printed length). -/
def needV : JVal → Nat
  | .jnull | .jundef | .jbool _ | .jnum _ | .jstr _ => 1
  | .jarr .nil => 1
  | .jarr (.cons v tl) => 1 + needV v + needA tl
  | .jobj .nil => 1
  | .jobj (.cons _ v tl) => 1 + needV v + needM tl

def needA : JList → Nat
  | .nil => 1
  | .cons v tl => 1 + needV v + needA tl

def needM : JMembers → Nat
  | .nil => 1
  | .cons _ v tl => 1 + needV v + needM tl
end

/-- Digit test for the number parser. -/
def isDigitCh (c : Char) : Bool := 48 ≤ c.toNat && c.toNat ≤ 57

/-- Value of a digit run (big-endian fold). -/
def digitsVal (l : List Char) : Nat := l.foldl (fun a c => a * 10 + (c.toNat - 48)) 0

/-- Parse a nonempty digit run off the front. -/
def parseNat (l : List Char) : Option (Nat × List Char) :=
  if (l.takeWhile isDigitCh).isEmpty then none
  else some (digitsVal (l.takeWhile isDigitCh), l.dropWhile isDigitCh)

/-- Parse a JSON integer (optional `-` sign and a digit run). -/
def parseJNum : List Char → Option (Int × List Char)
  | [] => none
  | c :: tl =>
    if c = '-' then (parseNat tl).map (fun p => (-(p.1 : Int), p.2))
    else (parseNat (c :: tl)).map (fun p => ((p.1 : Int), p.2))

/-- Decode one escape sequence (the characters after a backslash). -/
def unescapeSeq : List Char → Option (Char × List Char)
  | [] => none
  | e :: rest =>
    if e = '"' then some ('"', rest)
    else if e = '\\' then some ('\\', rest)
    else if e = '/' then some ('/', rest)
    else if e = 'b' then some (Char.ofNat 8, rest)
    else if e = 't' then some (Char.ofNat 9, rest)
    else if e = 'n' then some (Char.ofNat 10, rest)
    else if e = 'f' then some (Char.ofNat 12, rest)
    else if e = 'r' then some (Char.ofNat 13, rest)
    else if e = 'u' then
      match rest with
      | a :: b :: c :: d :: rest3 =>
        match hexVal a, hexVal b, hexVal c, hexVal d with
        | some x1, some x2, some x3, some x4 =>
          let cp := x1 * 4096 + x2 * 256 + x3 * 16 + x4
          if cp.isValidChar then some (Char.ofNat cp, rest3) else none
        | _, _, _, _ => none
      | _ => none
    else none

/-- Parse a string body up to the closing quote, fuelled (`length + 1`
always suffices).  Surrogate-pair `\u` escapes are not recombined; the
printer never emits them. -/
def parseStrBody : Nat → List Char → List Char → Option (List Char × List Char)
  | 0, _, _ => none
  | _ + 1, [], _ => none
  | f + 1, c :: rest, acc =>
    if c = '"' then some (acc.reverse, rest)
    else if c = '\\' then
      (unescapeSeq rest).bind (fun p => parseStrBody f p.2 (p.1 :: acc))
    else parseStrBody f rest (c :: acc)

/-- Expect an exact literal character run. -/
def expectChars : List Char → List Char → Option (List Char)
  | [], l => some l
  | _ :: _, [] => none
  | e :: etl, c :: ctl => if c = e then expectChars etl ctl else none

/-- Expect a colon. -/
def expectColon : List Char → Option (List Char)
  | [] => none
  | c :: rest => if c = ':' then some rest else none

/-- Expect an opening quote. -/
def expectQuote : List Char → Option (List Char)
  | [] => none
  | c :: rest => if c = '"' then some rest else none

mutual
/-- `JSON.parse`, fuelled (each unit of fuel consumes at least one input
character, so `length + 1` fuel always suffices).  Returns the value and
the unconsumed tail. -/
def parseJV : Nat → List Char → Option (JVal × List Char)
  | 0, _ => none
  | _ + 1, [] => none
  | f + 1, c :: rest =>
    if c = 'n' then (expectChars ['u', 'l', 'l'] rest).map (fun r => (.jnull, r))
    else if c = 't' then (expectChars ['r', 'u', 'e'] rest).map (fun r => (.jbool true, r))
    else if c = 'f' then
      (expectChars ['a', 'l', 's', 'e'] rest).map (fun r => (.jbool false, r))
    else if c = '"' then
      (parseStrBody (rest.length + 1) rest []).map (fun p => (.jstr ⟨p.1⟩, p.2))
    else if c = '[' then
      match rest with
      | [] => none
      | d :: r2 =>
        if d = ']' then some (.jarr .nil, r2)
        else
          (parseJV f rest).bind (fun p =>
            (parseArrRest f p.2).map (fun q => (.jarr (.cons p.1 q.1), q.2)))
    else if c = lcur then
      match rest with
      | [] => none
      | d :: r2 =>
        if d = rcur then some (.jobj .nil, r2)
        else
          (expectQuote rest).bind (fun r3 =>
          (parseStrBody (r3.length + 1) r3 []).bind (fun p =>
          (expectColon p.2).bind (fun r4 =>
          (parseJV f r4).bind (fun q =>
          (parseObjRest f q.2).map (fun w => (.jobj (.cons ⟨p.1⟩ q.1 w.1), w.2))))))
    else (parseJNum (c :: rest)).map (fun p => (.jnum p.1, p.2))

/-- After an array element: `,` and another element, or the closing `]`. -/
def parseArrRest : Nat → List Char → Option (JList × List Char)
  | 0, _ => none
  | _ + 1, [] => none
  | f + 1, c :: rest =>
    if c = ']' then some (.nil, rest)
    else if c = ',' then
      (parseJV f rest).bind (fun p =>
        (parseArrRest f p.2).map (fun q => (.cons p.1 q.1, q.2)))
    else none

/-- After an object member: `,` and another member, or the closing brace. -/
def parseObjRest : Nat → List Char → Option (JMembers × List Char)
  | 0, _ => none
  | _ + 1, [] => none
  | f + 1, c :: rest =>
    if c = rcur then some (.nil, rest)
    else if c = ',' then
      (expectQuote rest).bind (fun r3 =>
      (parseStrBody (r3.length + 1) r3 []).bind (fun p =>
      (expectColon p.2).bind (fun r4 =>
      (parseJV f r4).bind (fun q =>
      (parseObjRest f q.2).map (fun w => (.cons ⟨p.1⟩ q.1 w.1, w.2))))))
    else none
end

/-- `JSON.parse`: the whole input must be consumed (trailing characters are
a syntax error, modelled as `none`). -/
def jsonParseStr (str : String) : Option JVal :=
  (parseJV (str.length + 1) str.data).bind
    (fun p => if p.2 = [] then some p.1 else none)

/-! ### JSON round-trip: number printing -/

theorem digitCh_toNat : ∀ d < 10, (digitCh d).toNat = 48 + d := by decide

theorem isDigitCh_digitCh : ∀ d < 10, isDigitCh (digitCh d) = true := by decide

theorem natToCharsF_digits : ∀ f n, ∀ c ∈ natToCharsF f n, isDigitCh c = true := by
  intro f
  induction f with
  | zero => intro n c hc; simp [natToCharsF] at hc
  | succ f ih =>
    intro n c hc
    rw [natToCharsF] at hc
    by_cases h : n < 10
    · rw [if_pos h] at hc
      simp only [List.mem_singleton] at hc
      subst hc
      exact isDigitCh_digitCh n h
    · rw [if_neg h] at hc
      rcases List.mem_append.1 hc with h' | h'
      · exact ih _ c h'
      · simp only [List.mem_singleton] at h'
        subst h'
        exact isDigitCh_digitCh _ (by omega)

theorem natToCharsF_ne_nil (f n : Nat) : natToCharsF (f + 1) n ≠ [] := by
  rw [natToCharsF]
  split_ifs <;> simp

/-- Big-endian digit fold starting from an accumulator. -/
def digitsValFrom (a : Nat) (l : List Char) : Nat :=
  l.foldl (fun a c => a * 10 + (c.toNat - 48)) a

theorem digitsVal_eq (l : List Char) : digitsVal l = digitsValFrom 0 l := rfl

theorem digitsValFrom_natToCharsF : ∀ f n a, n < 10 ^ f →
    digitsValFrom a (natToCharsF f n)
      = a * 10 ^ (natToCharsF f n).length + n := by
  intro f
  induction f with
  | zero =>
    intro n a h
    have : n = 0 := by simpa using h
    subst this
    simp [natToCharsF, digitsValFrom]
  | succ f ih =>
    intro n a h
    rw [natToCharsF]
    by_cases hn : n < 10
    · rw [if_pos hn]
      simp only [digitsValFrom, List.foldl_cons, List.foldl_nil, List.length_singleton]
      rw [digitCh_toNat n hn]
      omega
    · rw [if_neg hn]
      have hdiv : n / 10 < 10 ^ f := by
        have h' : n < 10 * 10 ^ f := by rw [pow_succ] at h; omega
        exact Nat.div_lt_of_lt_mul h' 
      have hfold : digitsValFrom a (natToCharsF f (n / 10) ++ [digitCh (n % 10)])
          = (digitsValFrom a (natToCharsF f (n / 10))) * 10
            + ((digitCh (n % 10)).toNat - 48) := by
        unfold digitsValFrom
        rw [List.foldl_append]
        simp
      rw [hfold, ih _ a hdiv, digitCh_toNat _ (by omega)]
      have hmod : 48 + n % 10 - 48 = n % 10 := by omega
      rw [hmod]
      have hlen : (natToCharsF f (n / 10) ++ [digitCh (n % 10)]).length
          = (natToCharsF f (n / 10)).length + 1 := by simp
      rw [hlen]
      calc (a * 10 ^ (natToCharsF f (n / 10)).length + n / 10) * 10 + n % 10
          = a * 10 ^ (natToCharsF f (n / 10)).length * 10
            + (n / 10 * 10 + n % 10) := by ring
        _ = a * 10 ^ (natToCharsF f (n / 10)).length * 10 + n := by
            have : n / 10 * 10 + n % 10 = n := by omega
            rw [this]
        _ = a * 10 ^ ((natToCharsF f (n / 10)).length + 1) + n := by
            rw [pow_succ]; ring

theorem takeWhile_append_of (p : Char → Bool) (xs ys : List Char)
    (hx : ∀ c ∈ xs, p c = true) (hy : ∀ c, ys.head? = some c → p c = false) :
    (xs ++ ys).takeWhile p = xs ∧ (xs ++ ys).dropWhile p = ys := by
  induction xs with
  | nil =>
    simp only [List.nil_append]
    cases ys with
    | nil => simp
    | cons y t =>
      have : p y = false := hy y rfl
      simp [List.takeWhile_cons, List.dropWhile_cons, this]
  | cons x xt ih =>
    have hpx : p x = true := hx x (by simp)
    have ⟨h1, h2⟩ := ih (fun c hc => hx c (by simp [hc]))
    simp [List.takeWhile_cons, List.dropWhile_cons, hpx, h1, h2]

theorem parseNat_natToChars (n : Nat) (rest : List Char)
    (hrest : ∀ c, rest.head? = some c → isDigitCh c = false) :
    parseNat (natToChars n ++ rest) = some (n, rest) := by
  obtain ⟨htake, hdrop⟩ := takeWhile_append_of isDigitCh (natToChars n) rest
    (natToCharsF_digits (n + 1) n) hrest
  rw [parseNat, htake, hdrop]
  rw [if_neg (by simpa using natToCharsF_ne_nil n n)]
  have hv : digitsVal (natToChars n) = n := by
    rw [digitsVal_eq, natToChars,
      digitsValFrom_natToCharsF (n + 1) n 0
        (lt_of_lt_of_le (Nat.lt_pow_self (by norm_num) n)
          (Nat.pow_le_pow_right (by norm_num) (by omega)))]
    simp
  rw [natToChars] at hv ⊢
  rw [hv]

theorem intToChars_shape (i : Int) :
    ∃ c tl, intToChars i = c :: tl ∧ (c = '-' ∨ (48 ≤ c.toNat ∧ c.toNat ≤ 57)) := by
  rw [intToChars]
  split_ifs with h
  · exact ⟨'-', _, rfl, Or.inl rfl⟩
  · rw [natToChars]
    cases hc : natToCharsF (i.natAbs + 1) i.natAbs with
    | nil => exact absurd hc (natToCharsF_ne_nil _ _)
    | cons c tl =>
      refine ⟨c, tl, rfl, Or.inr ?_⟩
      have := natToCharsF_digits (i.natAbs + 1) i.natAbs c (by rw [hc]; simp)
      simpa [isDigitCh] using this

theorem parseJNum_intToChars (i : Int) (rest : List Char)
    (hrest : ∀ c, rest.head? = some c → isDigitCh c = false) :
    parseJNum (intToChars i ++ rest) = some (i, rest) := by
  rw [intToChars]
  split_ifs with hneg
  · simp only [List.cons_append]
    rw [parseJNum, if_pos rfl, parseNat_natToChars _ _ hrest]
    have he : -((i.natAbs : Nat) : Int) = i := by omega
    show some (-((i.natAbs : Nat) : Int), rest) = some (i, rest)
    rw [he]
  · rw [natToChars]
    cases hc : natToCharsF (i.natAbs + 1) i.natAbs with
    | nil => exact absurd hc (natToCharsF_ne_nil _ _)
    | cons c tl =>
      have hdig := natToCharsF_digits (i.natAbs + 1) i.natAbs c (by rw [hc]; simp)
      simp only [isDigitCh, Bool.and_eq_true, decide_eq_true_eq] at hdig
      simp only [List.cons_append]
      rw [parseJNum, if_neg (by
        intro h
        subst h
        have : ('-').toNat = 45 := rfl
        omega)]
      rw [← List.cons_append, ← hc, ← natToChars, parseNat_natToChars _ _ hrest]
      have he : (((i.natAbs : Nat)) : Int) = i := by omega
      show some ((((i.natAbs : Nat)) : Int), rest) = some (i, rest)
      rw [he]

/-! ### JSON round-trip: string escaping -/

theorem hexVal_lower : ∀ n < 16, hexVal (hexDigitCharLower n) = some n := by decide

theorem escapeList_length (l : List Char) : l.length ≤ (escapeList l).length := by
  induction l with
  | nil => simp [escapeList]
  | cons c tl ih =>
    rw [escapeList, List.length_append]
    have : 1 ≤ (escapeChar c).length := by
      rw [escapeChar]; split_ifs <;> simp
    simp only [List.length_cons]
    omega

/-- One escaped character steps the string-body parser by one accumulator
entry and one unit of fuel. -/
theorem parseStrBody_escape_step (f : Nat) (c : Char) (l acc : List Char) :
    parseStrBody (f + 1) (escapeChar c ++ l) acc = parseStrBody f l (c :: acc) := by
  rw [escapeChar]
  by_cases h1 : c = '"'
  · rw [if_pos h1]
    simp only [List.cons_append, List.nil_append]
    rw [parseStrBody, if_neg (by decide), if_pos rfl]
    rw [show unescapeSeq ('"' :: l) = some ('"', l) from rfl, h1]
    rfl
  · rw [if_neg h1]
    by_cases h2 : c = '\\'
    · rw [if_pos h2]
      simp only [List.cons_append, List.nil_append]
      rw [parseStrBody, if_neg (by decide), if_pos rfl]
      rw [show unescapeSeq ('\\' :: l) = some ('\\', l) from rfl, h2]
      rfl
    · rw [if_neg h2]
      by_cases h3 : c.toNat = 8
      · rw [if_pos h3]
        simp only [List.cons_append, List.nil_append]
        rw [parseStrBody, if_neg (by decide), if_pos rfl]
        rw [show unescapeSeq ('b' :: l) = some (Char.ofNat 8, l) from rfl]
        rw [show Char.ofNat 8 = c from by rw [← h3, Char.ofNat_toNat]]
        rfl
      · rw [if_neg h3]
        by_cases h4 : c.toNat = 9
        · rw [if_pos h4]
          simp only [List.cons_append, List.nil_append]
          rw [parseStrBody, if_neg (by decide), if_pos rfl]
          rw [show unescapeSeq ('t' :: l) = some (Char.ofNat 9, l) from rfl]
          rw [show Char.ofNat 9 = c from by rw [← h4, Char.ofNat_toNat]]
          rfl
        · rw [if_neg h4]
          by_cases h5 : c.toNat = 10
          · rw [if_pos h5]
            simp only [List.cons_append, List.nil_append]
            rw [parseStrBody, if_neg (by decide), if_pos rfl]
            rw [show unescapeSeq ('n' :: l) = some (Char.ofNat 10, l) from rfl]
            rw [show Char.ofNat 10 = c from by rw [← h5, Char.ofNat_toNat]]
            rfl
          · rw [if_neg h5]
            by_cases h6 : c.toNat = 12
            · rw [if_pos h6]
              simp only [List.cons_append, List.nil_append]
              rw [parseStrBody, if_neg (by decide), if_pos rfl]
              rw [show unescapeSeq ('f' :: l) = some (Char.ofNat 12, l) from rfl]
              rw [show Char.ofNat 12 = c from by rw [← h6, Char.ofNat_toNat]]
              rfl
            · rw [if_neg h6]
              by_cases h7 : c.toNat = 13
              · rw [if_pos h7]
                simp only [List.cons_append, List.nil_append]
                rw [parseStrBody, if_neg (by decide), if_pos rfl]
                rw [show unescapeSeq ('r' :: l) = some (Char.ofNat 13, l) from rfl]
                rw [show Char.ofNat 13 = c from by rw [← h7, Char.ofNat_toNat]]
                rfl
              · rw [if_neg h7]
                by_cases h8 : c.toNat < 32
                · rw [if_pos h8]
                  simp only [List.cons_append, List.nil_append]
                  rw [parseStrBody, if_neg (by decide), if_pos rfl]
                  rw [unescapeSeq]
                  rw [if_neg (by decide), if_neg (by decide), if_neg (by decide),
                    if_neg (by decide), if_neg (by decide), if_neg (by decide),
                    if_neg (by decide), if_neg (by decide), if_pos rfl]
                  rw [show hexVal '0' = some 0 from by decide,
                    hexVal_lower _ (by omega), hexVal_lower _ (by omega)]
                  dsimp only
                  have hcp : 0 * 4096 + 0 * 256 + c.toNat / 16 * 16 + c.toNat % 16
                      = c.toNat := by omega
                  rw [hcp, if_pos (show c.toNat.isValidChar from c.valid)]
                  rw [Char.ofNat_toNat]
                  rfl
                · rw [if_neg h8]
                  simp only [List.cons_append, List.nil_append]
                  rw [parseStrBody, if_neg h1, if_neg h2]

/-- Escaped-string round trip: the parser undoes `escapeList` up to the
closing quote. -/
theorem parseStrBody_round : ∀ (l : List Char) (f : Nat) (acc rest : List Char),
    l.length < f →
    parseStrBody f (escapeList l ++ '"' :: rest) acc = some (acc.reverse ++ l, rest) := by
  intro l
  induction l with
  | nil =>
    intro f acc rest hf
    cases f with
    | zero => omega
    | succ f =>
      rw [escapeList, List.nil_append, parseStrBody, if_pos rfl]
      simp
  | cons c tl ih =>
    intro f acc rest hf
    cases f with
    | zero => omega
    | succ f =>
      rw [escapeList, List.append_assoc, parseStrBody_escape_step,
        ih f (c :: acc) rest (by simp at hf ⊢; omega)]
      simp

/-! ### JSON round-trip: values -/

theorem jsonOkV_ne_undef {v : JVal} (h : jsonOkV v = true) : ¬ v = .jundef := by
  cases v <;> simp_all [jsonOkV]

/-- The first character of a printed value (used both to show the parser's
keyword dispatch picks the right branch and that value heads are never
delimiters). -/
theorem stringifyVal_head (v : JVal) :
    ∃ c tl, stringifyVal v = c :: tl ∧
      (c = 'n' ∨ c = 't' ∨ c = 'f' ∨ c = '"' ∨ c = '[' ∨ c = lcur ∨ c = '-'
        ∨ (48 ≤ c.toNat ∧ c.toNat ≤ 57)) := by
  cases v with
  | jnull => exact ⟨'n', _, rfl, by simp⟩
  | jundef => exact ⟨'n', _, rfl, by simp⟩
  | jbool b =>
    cases b with
    | false => exact ⟨'f', _, rfl, by simp⟩
    | true => exact ⟨'t', _, rfl, by simp⟩
  | jnum i =>
    obtain ⟨c, tl, hc, hd⟩ := intToChars_shape i
    exact ⟨c, tl, hc, by tauto⟩
  | jstr str => exact ⟨'"', _, rfl, by simp⟩
  | jarr xs =>
    cases xs with
    | nil => exact ⟨'[', _, rfl, by simp⟩
    | cons v tl => exact ⟨'[', _, rfl, by simp⟩
  | jobj ms => exact ⟨lcur, _, rfl, by simp⟩

/-- A printed value never starts with a delimiter. -/
theorem stringifyVal_head_ne {c : Char}
    (h : c = 'n' ∨ c = 't' ∨ c = 'f' ∨ c = '"' ∨ c = '[' ∨ c = lcur ∨ c = '-'
      ∨ (48 ≤ c.toNat ∧ c.toNat ≤ 57)) :
    ¬ c = ']' ∧ ¬ c = rcur := by
  rcases h with rfl | rfl | rfl | rfl | rfl | rfl | rfl | hd
  · exact ⟨by decide, by decide⟩
  · exact ⟨by decide, by decide⟩
  · exact ⟨by decide, by decide⟩
  · exact ⟨by decide, by decide⟩
  · exact ⟨by decide, by decide⟩
  · exact ⟨by decide, by decide⟩
  · exact ⟨by decide, by decide⟩
  · constructor
    · intro h'; subst h'; exact absurd hd (by decide)
    · intro h'; subst h'; exact absurd hd (by decide)

/-- A number head fails every keyword/structure dispatch test. -/
theorem numHead_ne {c : Char} (h : c = '-' ∨ (48 ≤ c.toNat ∧ c.toNat ≤ 57)) :
    ¬ c = 'n' ∧ ¬ c = 't' ∧ ¬ c = 'f' ∧ ¬ c = '"' ∧ ¬ c = '[' ∧ ¬ c = lcur := by
  rcases h with rfl | hd
  · exact ⟨by decide, by decide, by decide, by decide, by decide, by decide⟩
  · refine ⟨?_, ?_, ?_, ?_, ?_, ?_⟩ <;>
      (intro h'; subst h'; exact absurd hd (by decide))

theorem elemsRest_headNoDigit (xs : JList) (rest : List Char) :
    ∀ c, (stringifyElemsRest xs ++ rest).head? = some c → isDigitCh c = false := by
  cases xs with
  | nil => intro c hc; simp only [stringifyElemsRest] at hc; simp at hc; subst hc; decide
  | cons v tl =>
    intro c hc
    simp only [stringifyElemsRest, List.cons_append, List.head?_cons,
      Option.some.injEq] at hc
    subst hc; decide

theorem membersTrue_headNoDigit (ms : JMembers) (rest : List Char)
    (hok : jsonOkM ms = true) :
    ∀ c, (stringifyMembers ms true ++ rest).head? = some c → isDigitCh c = false := by
  cases ms with
  | nil => intro c hc; simp only [stringifyMembers] at hc; simp at hc; subst hc; decide
  | cons k v tl =>
    simp only [jsonOkM, Bool.and_eq_true] at hok
    intro c hc
    rw [stringifyMembers, if_neg (jsonOkV_ne_undef hok.1)] at hc
    simp at hc
    subst hc; decide

mutual
/-- Parsing undoes printing for any `undefined`-free value, leaving the
continuation untouched (the continuation must not begin with a digit, which
delimits numbers; in the grammar it always starts with a delimiter or is
empty). -/
theorem parseJV_round : ∀ (v : JVal) (f : Nat) (rest : List Char),
    jsonOkV v = true → needV v ≤ f →
    (∀ c, rest.head? = some c → isDigitCh c = false) →
    parseJV f (stringifyVal v ++ rest) = some (v, rest)
  | .jnull, f, rest => fun _ hf _ => by
    rw [needV] at hf
    cases f with
    | zero => omega
    | succ f => rfl
  | .jundef, f, rest => fun hok _ _ => by simp [jsonOkV] at hok
  | .jbool b, f, rest => fun _ hf _ => by
    rw [needV] at hf
    cases f with
    | zero => omega
    | succ f => cases b <;> rfl
  | .jnum i, f, rest => fun _ hf hrest => by
    rw [needV] at hf
    cases f with
    | zero => omega
    | succ f =>
      obtain ⟨c, tl, hc, hd⟩ := intToChars_shape i
      obtain ⟨hn, ht, hf', hq, hb, hcu⟩ := numHead_ne hd
      rw [show stringifyVal (.jnum i) = intToChars i from rfl, hc,
        List.cons_append, parseJV.eq_def]
      dsimp only
      rw [if_neg hn, if_neg ht, if_neg hf', if_neg hq,
        if_neg hb, if_neg hcu, ← List.cons_append, ← hc,
        parseJNum_intToChars i rest hrest]
      rfl
  | .jstr str, f, rest => fun _ hf _ => by
    rw [needV] at hf
    cases f with
    | zero => omega
    | succ f =>
      rw [show stringifyVal (.jstr str) ++ rest
          = '"' :: (escapeList str.data ++ '"' :: rest) from by
        simp [stringifyVal, quoteStr]]
      rw [parseJV.eq_def]
      dsimp only
      rw [if_neg (by decide), if_neg (by decide), if_neg (by decide),
        if_pos rfl]
      rw [parseStrBody_round str.data _ [] rest (by
        have := escapeList_length str.data
        simp only [List.length_append, List.length_cons]
        omega)]
      cases str with
      | mk data => rfl
  | .jarr .nil, f, rest => fun _ hf _ => by
    rw [needV] at hf
    cases f with
    | zero => omega
    | succ f => rfl
  | .jarr (.cons v tl), f, rest => fun hok hf hrest => by
    simp only [jsonOkV, jsonOkL, Bool.and_eq_true] at hok
    rw [needV] at hf
    cases f with
    | zero => omega
    | succ f =>
      rw [show stringifyVal (.jarr (.cons v tl)) ++ rest
          = '[' :: (stringifyVal v ++ (stringifyElemsRest tl ++ rest)) from by
        simp [stringifyVal]]
      rw [parseJV.eq_def]
      dsimp only
      rw [if_neg (by decide), if_neg (by decide), if_neg (by decide),
        if_neg (by decide), if_pos rfl]
      obtain ⟨c0, tl0, h0, hd0⟩ := stringifyVal_head v
      obtain ⟨hne1, _⟩ := stringifyVal_head_ne hd0
      rw [h0, List.cons_append]
      dsimp only
      rw [if_neg hne1, ← List.cons_append, ← h0,
        parseJV_round v f (stringifyElemsRest tl ++ rest) hok.1 (by omega)
          (elemsRest_headNoDigit tl rest)]
      simp only [Option.some_bind]
      rw [parseArrRest_round tl f rest hok.2 (by omega) hrest]
      rfl
  | .jobj .nil, f, rest => fun _ hf _ => by
    rw [needV] at hf
    cases f with
    | zero => omega
    | succ f => rfl
  | .jobj (.cons k v tl), f, rest => fun hok hf hrest => by
    simp only [jsonOkV, jsonOkM, Bool.and_eq_true] at hok
    rw [needV] at hf
    cases f with
    | zero => omega
    | succ f =>
      rw [show stringifyVal (.jobj (.cons k v tl)) ++ rest
          = lcur :: ('"' :: (escapeList k.data
            ++ '"' :: ':' :: (stringifyVal v ++ (stringifyMembers tl true ++ rest)))) from by
        rw [show stringifyVal (.jobj (.cons k v tl))
            = lcur :: stringifyMembers (.cons k v tl) false from rfl]
        rw [stringifyMembers, if_neg (jsonOkV_ne_undef hok.1)]
        simp [quoteStr]]
      rw [parseJV.eq_def]
      dsimp only
      rw [if_neg (by decide), if_neg (by decide), if_neg (by decide),
        if_neg (by decide), if_neg (by decide), if_pos rfl]
      rw [if_neg (by decide)]
      rw [show expectQuote ('"' :: (escapeList k.data
          ++ '"' :: ':' :: (stringifyVal v ++ (stringifyMembers tl true ++ rest))))
          = some (escapeList k.data
            ++ '"' :: ':' :: (stringifyVal v ++ (stringifyMembers tl true ++ rest)))
        from rfl]
      simp only [Option.some_bind]
      rw [show ('"' :: ':' :: (stringifyVal v ++ (stringifyMembers tl true ++ rest)))
          = '"' :: (':' :: (stringifyVal v ++ (stringifyMembers tl true ++ rest)))
        from rfl]
      rw [parseStrBody_round k.data _ []
        (':' :: (stringifyVal v ++ (stringifyMembers tl true ++ rest))) (by
        have := escapeList_length k.data
        simp only [List.length_append, List.length_cons]
        omega)]
      simp only [Option.some_bind]
      rw [show expectColon (':' :: (stringifyVal v ++ (stringifyMembers tl true ++ rest)))
          = some (stringifyVal v ++ (stringifyMembers tl true ++ rest)) from rfl]
      simp only [Option.some_bind]
      rw [parseJV_round v f (stringifyMembers tl true ++ rest) hok.1 (by omega)
        (membersTrue_headNoDigit tl rest hok.2)]
      simp only [Option.some_bind]
      rw [parseObjRest_round tl f rest hok.2 (by omega) hrest]
      cases k with
      | mk data => rfl

/-- Parsing undoes printing for the tail of an array. -/
theorem parseArrRest_round : ∀ (xs : JList) (f : Nat) (rest : List Char),
    jsonOkL xs = true → needA xs ≤ f →
    (∀ c, rest.head? = some c → isDigitCh c = false) →
    parseArrRest f (stringifyElemsRest xs ++ rest) = some (xs, rest)
  | .nil, f, rest => fun _ hf _ => by
    rw [needA] at hf
    cases f with
    | zero => omega
    | succ f => rfl
  | .cons v tl, f, rest => fun hok hf hrest => by
    simp only [jsonOkL, Bool.and_eq_true] at hok
    rw [needA] at hf
    cases f with
    | zero => omega
    | succ f =>
      rw [show stringifyElemsRest (.cons v tl) ++ rest
          = ',' :: (stringifyVal v ++ (stringifyElemsRest tl ++ rest)) from by
        simp [stringifyElemsRest]]
      rw [parseArrRest.eq_def]
      dsimp only
      rw [if_neg (by decide), if_pos rfl,
        parseJV_round v f (stringifyElemsRest tl ++ rest) hok.1 (by omega)
          (elemsRest_headNoDigit tl rest)]
      simp only [Option.some_bind]
      rw [parseArrRest_round tl f rest hok.2 (by omega) hrest]
      rfl

/-- Parsing undoes printing for the tail of an object. -/
theorem parseObjRest_round : ∀ (ms : JMembers) (f : Nat) (rest : List Char),
    jsonOkM ms = true → needM ms ≤ f →
    (∀ c, rest.head? = some c → isDigitCh c = false) →
    parseObjRest f (stringifyMembers ms true ++ rest) = some (ms, rest)
  | .nil, f, rest => fun _ hf _ => by
    rw [needM] at hf
    cases f with
    | zero => omega
    | succ f => rfl
  | .cons k v tl, f, rest => fun hok hf hrest => by
    simp only [jsonOkM, Bool.and_eq_true] at hok
    rw [needM] at hf
    cases f with
    | zero => omega
    | succ f =>
      rw [show stringifyMembers (.cons k v tl) true ++ rest
          = ',' :: ('"' :: (escapeList k.data
            ++ '"' :: ':' :: (stringifyVal v ++ (stringifyMembers tl true ++ rest)))) from by
        rw [stringifyMembers, if_neg (jsonOkV_ne_undef hok.1)]
        simp [quoteStr]]
      rw [parseObjRest.eq_def]
      dsimp only
      rw [if_neg (by decide), if_pos rfl]
      rw [show expectQuote ('"' :: (escapeList k.data
          ++ '"' :: ':' :: (stringifyVal v ++ (stringifyMembers tl true ++ rest))))
          = some (escapeList k.data
            ++ '"' :: ':' :: (stringifyVal v ++ (stringifyMembers tl true ++ rest)))
        from rfl]
      simp only [Option.some_bind]
      rw [show ('"' :: ':' :: (stringifyVal v ++ (stringifyMembers tl true ++ rest)))
          = '"' :: (':' :: (stringifyVal v ++ (stringifyMembers tl true ++ rest)))
        from rfl]
      rw [parseStrBody_round k.data _ []
        (':' :: (stringifyVal v ++ (stringifyMembers tl true ++ rest))) (by
        have := escapeList_length k.data
        simp only [List.length_append, List.length_cons]
        omega)]
      simp only [Option.some_bind]
      rw [show expectColon (':' :: (stringifyVal v ++ (stringifyMembers tl true ++ rest)))
          = some (stringifyVal v ++ (stringifyMembers tl true ++ rest)) from rfl]
      simp only [Option.some_bind]
      rw [parseJV_round v f (stringifyMembers tl true ++ rest) hok.1 (by omega)
        (membersTrue_headNoDigit tl rest hok.2)]
      simp only [Option.some_bind]
      rw [parseObjRest_round tl f rest hok.2 (by omega) hrest]
      cases k with
      | mk data => rfl
end

mutual
/-- The parser fuel bound is dominated by printed length. -/
theorem needV_le : ∀ v : JVal, jsonOkV v = true → needV v ≤ (stringifyVal v).length
  | .jnull, _ => by simp [needV, stringifyVal]
  | .jundef, h => by simp [jsonOkV] at h
  | .jbool b, _ => by cases b <;> simp [needV, stringifyVal]
  | .jnum i, _ => by
    obtain ⟨c, tl, hc, _⟩ := intToChars_shape i
    rw [needV, show stringifyVal (.jnum i) = intToChars i from rfl, hc]
    simp
  | .jstr str, _ => by simp [needV, stringifyVal, quoteStr]
  | .jarr .nil, _ => by simp [needV, stringifyVal]
  | .jarr (.cons v tl), h => by
    simp only [jsonOkV, jsonOkL, Bool.and_eq_true] at h
    have h1 := needV_le v h.1
    have h2 := needA_le tl h.2
    rw [needV, show stringifyVal (.jarr (.cons v tl))
      = '[' :: stringifyVal v ++ stringifyElemsRest tl from rfl]
    simp only [List.length_cons, List.length_append]
    omega
  | .jobj .nil, _ => by simp [needV, stringifyVal, stringifyMembers]
  | .jobj (.cons k v tl), h => by
    simp only [jsonOkV, jsonOkM, Bool.and_eq_true] at h
    have h1 := needV_le v h.1
    have h2 := needM_le tl h.2
    rw [needV, show stringifyVal (.jobj (.cons k v tl))
      = lcur :: stringifyMembers (.cons k v tl) false from rfl,
      stringifyMembers, if_neg (jsonOkV_ne_undef h.1)]
    simp only [if_neg Bool.false_ne_true, List.length_cons, List.length_append,
      quoteStr, Bool.false_eq_true, if_false, List.nil_append]
    omega

theorem needA_le : ∀ xs : JList, jsonOkL xs = true →
    needA xs ≤ (stringifyElemsRest xs).length
  | .nil, _ => by simp [needA, stringifyElemsRest]
  | .cons v tl, h => by
    simp only [jsonOkL, Bool.and_eq_true] at h
    have h1 := needV_le v h.1
    have h2 := needA_le tl h.2
    rw [needA, stringifyElemsRest]
    simp only [List.length_cons, List.length_append]
    omega

theorem needM_le : ∀ ms : JMembers, jsonOkM ms = true →
    needM ms ≤ (stringifyMembers ms true).length
  | .nil, _ => by simp [needM, stringifyMembers]
  | .cons k v tl, h => by
    simp only [jsonOkM, Bool.and_eq_true] at h
    have h1 := needV_le v h.1
    have h2 := needM_le tl h.2
    rw [needM, stringifyMembers, if_neg (jsonOkV_ne_undef h.1)]
    simp only [if_pos rfl, if_true, eq_self_iff_true, quoteStr,
      List.length_append, List.length_cons, List.singleton_append]
    omega
end

/-- `JSON.parse (JSON.stringify o) = o` for `undefined`-free payload
objects. -/
theorem jsonParseStr_stringify (ms : JMembers) (hok : jsonOkM ms = true) :
    jsonParseStr (jsonStringifyObj ms) = some (.jobj ms) := by
  unfold jsonParseStr jsonStringifyObj
  rw [show (String.mk (stringifyVal (.jobj ms))).data
    = stringifyVal (.jobj ms) from rfl]
  rw [show (String.mk (stringifyVal (.jobj ms))).length
    = (stringifyVal (.jobj ms)).length from rfl]
  have hokv : jsonOkV (.jobj ms) = true := by simpa [jsonOkV] using hok
  have h := parseJV_round (.jobj ms) ((stringifyVal (.jobj ms)).length + 1) [] hokv
    (le_trans (needV_le _ hokv) (by omega)) (by intro c hc; simp at hc)
  rw [List.append_nil] at h
  rw [h]
  rfl

/-! ### The codec: `encodeQueryData` / `decodeQueryData` (`part_000` 138–177)

`SupportedFormat = 'query' | 'base64'`.  The `qs` library (flat
`key=value&...` serialization with bracket paths for nested data, used with
`encode: false` on the stringify side) is external to the repository; it is
modelled to its documented default behaviour.  No claim depends on `qs`
internals — only on which object the source passes to it. -/

inductive Fmt where
  | query
  | base64
deriving DecidableEq

mutual
/-- `qs.stringify` (default options, `encode: false`): the `key=value`
segments for one value under a key path prefix.  `undefined` is omitted,
`null` keeps the key with an empty value, arrays use `prefix[i]`, nested
objects `prefix[sub]`. -/
def qsPairs : String → JVal → List String
  | _, .jundef => []
  | pre, .jnull => [pre ++ "="]
  | pre, .jbool b => [pre ++ "=" ++ (if b then "true" else "false")]
  | pre, .jnum i => [pre ++ "=" ++ String.mk (intToChars i)]
  | pre, .jstr str => [pre ++ "=" ++ str]
  | pre, .jarr xs => qsPairsArr pre 0 xs
  | pre, .jobj ms => qsPairsObj pre ms

def qsPairsArr : String → Nat → JList → List String
  | _, _, .nil => []
  | pre, i, .cons v tl =>
    qsPairs (pre ++ "[" ++ String.mk (natToChars i) ++ "]") v ++ qsPairsArr pre (i + 1) tl

def qsPairsObj : String → JMembers → List String
  | _, .nil => []
  | pre, .cons k v tl => qsPairs (pre ++ "[" ++ k ++ "]") v ++ qsPairsObj pre tl
end

/-- Top-level `qs.stringify` segments (top-level keys carry no brackets). -/
def qsTopPairs : JMembers → List String
  | .nil => []
  | .cons k v tl => qsPairs k v ++ qsTopPairs tl

/-- `qs.stringify(o, \x7b encode: false \x7d)`. -/
def qsStringify (ms : JMembers) : String :=
  String.intercalate "&" (qsTopPairs ms)

/-- One `key=value` segment of `qs.parse` (value after the first `=`;
values come back as strings). -/
def qsParseSeg (seg : String) : String × JVal :=
  match seg.splitOn "=" with
  | [] => ("", .jstr "")
  | k :: rest => (k, .jstr (String.intercalate "=" rest))

def qsParseList : List String → JMembers
  | [] => .nil
  | seg :: tl => .cons (qsParseSeg seg).1 (qsParseSeg seg).2 (qsParseList tl)

/-- `qs.parse` (flat model of the external library; no claim exercises its
output beyond totality). -/
def qsParse (s : String) : JMembers :=
  if s = "" then .nil else qsParseList (s.splitOn "&")

/-- `encodeQueryData` (`part_000` 145–159): filter the payload to its
useful members; if none remain (or for a missing payload) return `""`.
For `base64`, serialize the **filtered** copy `_query` as JSON, make it
URI-safe, and base64 it.  For `query`, the source passes the **unfiltered**
`queryData` to `qs.stringify`. -/
def encodeQueryData (queryData : Payload) (format : Fmt) : String :=
  if filterUseful queryData = .nil then ""
  else
    match format with
    | .base64 =>
      btoaStr (encodeURIComponentStr (jsonStringifyObj (filterUseful queryData)))
    | .query => qsStringify queryData

/-- Outcome of a decode: either the function throws (uncaught exception
escaping to the caller), or returns a value, with `warned` recording
whether the non-fatal integrity warning (`console.error`) was printed. -/
inductive DecodeOut where
  | thrown
  | ok (v : JVal) (warned : Bool)
deriving DecidableEq

/-- The `try`-protected base64 pipeline
`JSON.parse(decodeURIComponent(atob(decodeURIComponent(data))))`
(`part_000` line 166); `none` is the caught exception. -/
def base64DecodeChain (data : String) : Option JVal :=
  (decodeURIComponentStr data).bind (fun s1 =>
  (atobStr s1).bind (fun s2 =>
  (decodeURIComponentStr s2).bind (fun s3 =>
  jsonParseStr s3)))

/-- `decodeQueryData` (`part_000` 161–177).  Empty input falls through to
`return \x7b\x7d`.  In the `base64` branch every failure is caught, warned
about, and falls through to the empty object.  In the `query` branch
`decodeURIComponent(data)` runs **outside** any `try`, so its `URIError`
propagates to the caller (`.thrown`). -/
def decodeQueryData (data : String) (format : Fmt) : DecodeOut :=
  if data = "" then .ok (.jobj .nil) false
  else
    match format with
    | .base64 =>
      match base64DecodeChain data with
      | some v => .ok v false
      | none => .ok (.jobj .nil) true
    | .query =>
      match decodeURIComponentStr data with
      | none => .thrown
      | some s1 => .ok (.jobj (qsParse s1)) false

/-! ### The Search State Engine: `useSearch` (`part_000` 58–136)

React state cells and refs are modelled as fields of an explicit state
record; the browser world the storage adapters touch (the link's query
parameter and the session store) is part of the same record.  `Router`,
`document.location` and `sessionStorage` are external; their effect is
exactly the field updates below. -/

/-- `SearchOptions.sync : false | 'url' | 'copy'`. -/
inductive SyncMode where
  | off
  | url
  | copy
deriving DecidableEq

/-- JS truthiness of the `sync` option. -/
def SyncMode.truthy : SyncMode → Bool
  | .off => false
  | .url => true
  | .copy => true

/-- `SearchOptions.cache : boolean | string`. -/
inductive CacheMode where
  | ofBool (b : Bool)
  | ofString (s : String)
deriving DecidableEq

/-- JS truthiness of the `cache` option (`""` is falsy). -/
def CacheMode.truthy : CacheMode → Bool
  | .ofBool b => b
  | .ofString s => !(s = "")

/-- How the `cache` value prints inside the template-literal session key. -/
def CacheMode.keyStr : CacheMode → String
  | .ofBool b => if b then "true" else "false"
  | .ofString s => s

def SEARCH_QUERY_KEY : String := "_q"

def SEARCH_CACHE_KEY : String := "list_search_query"

/-- Modelled from the spec: `PageQuery` (imported from `service/public`,
which is not under `src/`) carries `page` and `pageSize`, both positive
integers.  `new PageQuery()`'s default field values are not given by the
spec; the concrete numbers below are arbitrary and no claim depends on
them. -/
structure PageQuery where
  page : Int
  pageSize : Int
deriving DecidableEq

/-- Arbitrary default construction for `new PageQuery()` (see
`PageQuery`'s comment). -/
def PageQuery.init : PageQuery := ⟨1, 10⟩

/-- The configuration the engine closes over (fixed at creation). -/
structure SearchConfig where
  pathname : String
  sync : SyncMode
  cache : CacheMode
  storageFormat : Fmt
  staticSearchData : Payload

/-- The storage world: `storageRef.current`, the link's `_q` parameter,
and the session store. -/
structure StoreState where
  storageRef : String
  urlParam : Option String
  session : List (String × String)
deriving DecidableEq

/-- `sessionStorage.setItem` (unconditional overwrite). -/
def sessionSet (sess : List (String × String)) (k v : String) : List (String × String) :=
  (k, v) :: sess.filter (fun kv => kv.1 != k)

/-- The session key `` `$\x7bpathname\x7d_$\x7bprefix\x7d_$\x7bSEARCH_CACHE_KEY\x7d` ``
(`part_000` 201–210). -/
def cacheStorageKey (cfg : SearchConfig) : String :=
  cfg.pathname ++ "_" ++ cfg.cache.keyStr ++ "_" ++ SEARCH_CACHE_KEY

/-- `generateNewUrl`/`setToUrl` (`part_000` 179–193): the reserved
parameter is deleted, then set to `encodeURIComponent(data)` when `data`
is nonempty. -/
def urlParamAfterWrite (data : String) : Option String :=
  if data = "" then none else some (encodeURIComponentStr data)

/-- `storageFunc` (`part_000` 88–101): re-encode into `storageRef` when
sync or cache is on; write the link when `sync === 'url'`; write the
session entry (unconditionally, even when empty) when cache is on. -/
def storageFunc (cfg : SearchConfig) (st : StoreState) (formData : Payload) : StoreState :=
  let ref := if cfg.sync.truthy || cfg.cache.truthy
    then encodeQueryData formData cfg.storageFormat else st.storageRef
  let url := if cfg.sync = .url then urlParamAfterWrite ref else st.urlParam
  let sess := if cfg.cache.truthy then sessionSet st.session (cacheStorageKey cfg) ref
    else st.session
  ⟨ref, url, sess⟩

/-- The engine's mutable state: the `loading`/`pageData` React states and
the `searchDataRef`/`paginationRef` refs, plus the storage world. -/
structure EngineState (α : Type) where
  loading : Bool
  pageData : Option α
  searchData : Payload
  pagination : PageQuery
  store : StoreState

/-- `_initialSearchData` (`part_000` 78–82): the declared initial payload
spread-overridden by the cache-decoded payload when cache is truthy, then
by the link-decoded payload when sync is truthy (`cacheP` and `linkP`
stand for the results of `getFromCache`/`getFromUrl`). -/
def initialSearchData (sync : SyncMode) (cache : CacheMode)
    (declared cacheP linkP : Payload) : Payload :=
  JMembers.spread
    (JMembers.spread declared (if cache.truthy then cacheP else .nil))
    (if sync.truthy then linkP else .nil)

/-- The argument-processing phase of the trigger (`part_000` 102–116):
enter loading; if a pagination argument is given, keep the current page
exactly when the pageSize is unchanged (else reset to 1) and adopt the
given pageSize; if a query-payload argument is given, replace the stored
payload and reset the page to 1 (after the pagination decision). -/
def argUpdate (st : EngineState α) (searchData? : Option Payload)
    (pagination? : Option PageQuery) : EngineState α :=
  let st1 := { st with loading := true }
  let st2 :=
    match pagination? with
    | some pg =>
      { st1 with pagination :=
        ⟨if st1.pagination.pageSize = pg.pageSize then pg.page else 1, pg.pageSize⟩ }
    | none => st1
  match searchData? with
  | some sd => { st2 with searchData := sd, pagination := { st2.pagination with page := 1 } }
  | none => st2

/-- The pagination object as the payload keys it contributes to the fetch
argument. -/
def pagPayload (p : PageQuery) : Payload :=
  .cons "page" (.jnum p.page) (.cons "pageSize" (.jnum p.pageSize) .nil)

/-- The combined fetch argument
`\x7b ...searchDataRef.current, ...paginationRef.current, ...staticParams.current \x7d`
(`part_000` line 118). -/
def requestPayload (cfg : SearchConfig) (st : EngineState α) : Payload :=
  JMembers.spread (JMembers.spread st.searchData (pagPayload st.pagination))
    cfg.staticSearchData

/-- Everything observable about one trigger invocation: the state after
settlement, the payload handed to the fetch function, and the promise the
caller gets back. -/
structure TriggerResult (α ε : Type) where
  state : EngineState α
  request : Payload
  returned : Except ε Unit

/-- One full run of the trigger function (`part_000` 102–126) for a given
fetch outcome: update refs from the arguments, issue the fetch with the
merged payload, on success store the page data (`then`), and in the
`finally` persist the current payload via `storageFunc` and leave loading.
The promise returned to the caller carries the fetch rejection, if any. -/
def triggerRun (cfg : SearchConfig) (st : EngineState α)
    (searchData? : Option Payload) (pagination? : Option PageQuery)
    (outcome : Except ε α) : TriggerResult α ε :=
  let st2 := argUpdate st searchData? pagination?
  let req := requestPayload cfg st2
  let st3 :=
    match outcome with
    | .ok r => { st2 with pageData := some r }
    | .error _ => st2
  let st4 := { st3 with
    store := storageFunc cfg st3.store st3.searchData,
    loading := false }
  ⟨st4, req, outcome.map (fun _ => ())⟩

/-! ### The Column Rendering Pipeline: `useTable.tsx`

The render-composition slice of `useColumns` (format chain, amend
fallback, truncation wrapper; `useTable.tsx` 103–347).  Presentational
fields (`title`, `dataIndex`, widths) do not influence the composed render
and are not modelled.  Render functions take `(value, record, index)` and
produce a `DVal`: a JS value, the number `NaN`, or a tooltip node. -/

/-- What a render function can produce: a plain JS value, the IEEE `NaN`
(which displays as `"NaN"`), or a `Tooltip` element with a title and a
visible child. -/
inductive DVal where
  | ofVal (v : JVal)
  | nanNum
  | tooltip (title : DVal) (child : DVal)
deriving DecidableEq

/-- A column render function. -/
abbrev Render := JVal → Payload → Int → DVal

/-- Modelled from the spec: `isEmpty` (from `../toolkit`, which is not
under `src/`) holds exactly for the non-useful values: `undefined`,
`null`, the empty string and the empty sequence. -/
def isEmptyTk : JVal → Bool
  | .jundef => true
  | .jnull => true
  | .jstr s => s = ""
  | .jarr xs => xs = .nil
  | _ => false

/-- JS truthiness (the `value ? … : _opt.default` test in the date
factories). -/
def jsTruthy : JVal → Bool
  | .jnull => false
  | .jundef => false
  | .jbool b => b
  | .jnum i => !(i = 0)
  | .jstr s => !(s = "")
  | .jarr _ => true
  | .jobj _ => true

mutual
/-- JS `String(value)` coercion (`Number.parseFloat`/`parseInt` receive
the coerced string): arrays join their elements with `,` (null/undefined
elements blank), objects print `[object Object]`. -/
def jsToStrVal : JVal → String
  | .jnull => "null"
  | .jundef => "undefined"
  | .jbool b => if b then "true" else "false"
  | .jnum i => String.mk (intToChars i)
  | .jstr s => s
  | .jarr xs => jsToStrList xs
  | .jobj _ => "[object Object]"

def jsToStrList : JList → String
  | .nil => ""
  | .cons v .nil =>
    (match v with
     | .jnull => ""
     | .jundef => ""
     | _ => jsToStrVal v)
  | .cons v tl =>
    (match v with
     | .jnull => ""
     | .jundef => ""
     | _ => jsToStrVal v) ++ "," ++ jsToStrList tl
end

/-- `Number.parseFloat` on the value domain of the model: optional
whitespace, optional sign, a decimal literal prefix; no parsable prefix is
`NaN` (`none`).  (`Infinity` and exponents are outside the model's number
domain.) -/
def jsParseFloat (s : String) : Option ℚ :=
  let l := s.data.dropWhile (fun c => c = ' ' || c.toNat = 9 || c.toNat = 10 || c.toNat = 13)
  let signAndRest : Bool × List Char :=
    match l with
    | c :: tl => if c = '-' then (true, tl) else if c = '+' then (false, tl) else (false, l)
    | [] => (false, [])
  let l2 := signAndRest.2
  let ip := l2.takeWhile isDigitCh
  let l3 := l2.dropWhile isDigitCh
  let fp :=
    match l3 with
    | c :: tl => if c = '.' then tl.takeWhile isDigitCh else []
    | [] => []
  if ip.isEmpty && fp.isEmpty then none
  else
    let ival : ℚ := (digitsVal ip : Nat)
    let fval : ℚ := (digitsVal fp : Nat) / ((10 : ℚ) ^ fp.length)
    some ((if signAndRest.1 then -1 else 1) * (ival + fval))

/-- Digit value in a radix (0–9, a–z, A–Z). -/
def digitValInRadix (c : Char) (r : Nat) : Option Nat :=
  let v :=
    if 48 ≤ c.toNat ∧ c.toNat ≤ 57 then some (c.toNat - 48)
    else if 97 ≤ c.toNat ∧ c.toNat ≤ 122 then some (c.toNat - 87)
    else if 65 ≤ c.toNat ∧ c.toNat ≤ 90 then some (c.toNat - 55)
    else none
  v.bind (fun d => if d < r then some d else none)

/-- Longest digit prefix in a radix; `none` when there is no digit at all
(`found` tracks whether one was read). -/
def parseIntDigits (r : Nat) : List Char → Nat → Bool → Option Nat
  | [], acc, found => if found then some acc else none
  | c :: tl, acc, found =>
    match digitValInRadix c r with
    | some d => parseIntDigits r tl (acc * r + d) true
    | none => if found then some acc else none

/-- `Number.parseInt` (prefix parse in the given radix; an invalid radix
or no digit is `NaN` = `none`; `0x` auto-detection is outside the model's
inputs). -/
def jsParseInt (s : String) (radix : Option Int) : Option Int :=
  let r : Nat :=
    match radix with
    | none => 10
    | some i => if i = 0 then 10 else if 2 ≤ i ∧ i ≤ 36 then i.toNat else 0
  if r = 0 then none
  else
    let l := s.data.dropWhile (fun c => c = ' ' || c.toNat = 9 || c.toNat = 10 || c.toNat = 13)
    match l with
    | c :: tl =>
      if c = '-' then (parseIntDigits r tl 0 false).map (fun n => -(n : Int))
      else if c = '+' then (parseIntDigits r tl 0 false).map (fun n => (n : Int))
      else (parseIntDigits r l 0 false).map (fun n => (n : Int))
    | [] => none

/-- Round half away from zero (the model of `toFixed`'s rounding; exact
decimals only — binary-double tie artifacts are outside the model). -/
def roundHalfAway (q : ℚ) : Int :=
  if 0 ≤ q then ⌊q + 1 / 2⌋ else -⌊-q + 1 / 2⌋

/-- Left-pad with zeros to a target width. -/
def padZeros (l : List Char) (d : Nat) : List Char :=
  List.replicate (d - l.length) '0' ++ l

/-- `Number.prototype.toFixed` for in-range digit counts. -/
def toFixedStr (q : ℚ) (d : Nat) : String :=
  let scale : ℚ := ((10 ^ d : Nat) : ℚ)
  let n := roundHalfAway (q * scale)
  let sign := if n < 0 then "-" else ""
  let m := n.natAbs
  if d = 0 then sign ++ String.mk (natToChars m)
  else sign ++ String.mk (natToChars (m / 10 ^ d)) ++ "."
    ++ String.mk (padZeros (natToChars (m % 10 ^ d)) d)

/-- Insert thousands separators into an integer digit string. -/
def groupDigitsRev : Nat → List Char → List Char
  | _, [] => []
  | k, c :: tl =>
    if k = 3 then c :: ',' :: groupDigitsRev 1 tl
    else c :: groupDigitsRev (k + 1) tl

/-- Modelled from the spec: `renderPrice` (from `../toolkit`, which is not
under `src/`) renders a numeric value as a locale-style thousands-grouped
2-decimal string (spec scenario: `1234.5 ↦ "1,234.50"`); per the spec's
error-handling section a non-numeric value makes it throw (`none`), which
the factories' `catch` turns back into the original value. -/
def renderPriceM (v : JVal) : Option String :=
  let q? : Option ℚ :=
    match v with
    | .jnum i => some (i : ℚ)
    | .jstr s => jsParseFloat s
    | _ => none
  q?.map (fun q =>
    let n := roundHalfAway (q * 100)
    let sign := if n < 0 then "-" else ""
    let m := n.natAbs
    sign ++ String.mk ((groupDigitsRev 1 (natToChars (m / 100)).reverse).reverse)
      ++ "." ++ String.mk (padZeros (natToChars (m % 100)) 2))

/-- The external `moment` library's format call (date/datetime factories).
Uninterpreted in the model — no claim depends on its output — but fixed
and executable. -/
def momentFormat (pattern : String) (v : JVal) : String :=
  pattern ++ ":" ++ jsToStrVal v

/-- An enum capability: raw value to descriptive name (the
`EnumDataType.valueOf(...).name` boundary). -/
abbrev EnumData := List (JVal × String)

/-- The supported format names (`ReadFormatType`). -/
inductive FName where
  | date
  | datetime
  | number
  | int
  | money
  | constant
  | join
deriving DecidableEq

/-- `with` for the `join` format: a single field name or a list. -/
inductive JoinWith where
  | ofStr (s : String)
  | ofList (l : List String)
deriving DecidableEq

/-- One bag of formatter options, every field optional — the model of the
dynamically-typed option objects merged by `\x7b ...defaults, ...opt \x7d`
(a spread overrides exactly the keys present in `opt`).  `dflt` models the
`default` key. -/
structure FmtOpt where
  dflt : Option String := none
  pattern : Option String := none
  digits : Option Int := none
  radix : Option Int := none
  symbol : Option String := none
  origin : Option EnumData := none
  joinWith : Option JoinWith := none
  sep : Option String := none
  subFmt : Option FName := none
deriving DecidableEq

/-- `\x7b ...d, ...o \x7d` on option bags (`o`'s present keys win); a
`null`/absent `opt` leaves the defaults. -/
def mergeOpts (d : FmtOpt) (o : Option FmtOpt) : FmtOpt :=
  match o with
  | none => d
  | some o =>
    { dflt := o.dflt <|> d.dflt
      pattern := o.pattern <|> d.pattern
      digits := o.digits <|> d.digits
      radix := o.radix <|> d.radix
      symbol := o.symbol <|> d.symbol
      origin := o.origin <|> d.origin
      joinWith := o.joinWith <|> d.joinWith
      sep := o.sep <|> d.sep
      subFmt := o.subFmt <|> d.subFmt }

/-- `DEFAULT_FORMAT_OPTIONS` (`useTable.tsx` 103–111); none of the
entries carries a `default` key. -/
def DEFAULT_FORMAT_OPTIONS : FName → FmtOpt
  | .date => { pattern := some "YYYY-MM-DD" }
  | .datetime => { pattern := some "YYYY-MM-DD HH:mm:ss" }
  | .number => { digits := some 0 }
  | .int => { radix := some 10 }
  | .money => { symbol := some "" }
  | .constant => { origin := none }
  | .join => { joinWith := some (.ofStr ""), sep := some "-", subFmt := none }

/-- Display of the formatter's `default` option: an absent default renders
`undefined`. -/
def dfltDisplay (d : Option String) : DVal :=
  match d with
  | some s => .ofVal (.jstr s)
  | none => .ofVal (.jundef)

/-- Element stringification used by `Array.prototype.join`. -/
def joinElemStr (v : JVal) : String :=
  match v with
  | .jnull => ""
  | .jundef => ""
  | _ => jsToStrVal v

/-- `DEFAULT_FORMAT_RENDER_FACTORY` (`useTable.tsx` 112–192) for the six
non-`join` formats (the `join` entry is `formatFactory` below; the TS type
forbids `join` as its own sub-format, so this function's `join` arm is
unreachable and renders the value unchanged).

Notes kept from the source: the `int` factory merges over
`DEFAULT_FORMAT_OPTIONS.number` (not `.int`) — a quirk reproduced
faithfully; `Number.parseFloat`/`parseInt` never throw, so their `try`
blocks only catch `toFixed` range errors, and a failed parse flows on as
`NaN`; a `constant` lookup miss makes JS throw on `undefined.name`
(unreachable in every claim; the model renders `undefined` there). -/
def basicFactory (n : FName) (opt : Option FmtOpt) : Render :=
  match n with
  | .date =>
    let o := mergeOpts (DEFAULT_FORMAT_OPTIONS .date) opt
    fun v _ _ =>
      if jsTruthy v then .ofVal (.jstr (momentFormat (o.pattern.getD "") v))
      else dfltDisplay o.dflt
  | .datetime =>
    let o := mergeOpts (DEFAULT_FORMAT_OPTIONS .datetime) opt
    fun v _ _ =>
      if jsTruthy v then .ofVal (.jstr (momentFormat (o.pattern.getD "") v))
      else dfltDisplay o.dflt
  | .number =>
    let o := mergeOpts (DEFAULT_FORMAT_OPTIONS .number) opt
    fun v _ _ =>
      if isEmptyTk v then dfltDisplay o.dflt
      else
        let d := o.digits.getD 0
        if d < 0 ∨ 100 < d then .ofVal v
        else
          match jsParseFloat (jsToStrVal v) with
          | some q => .ofVal (.jstr (toFixedStr q d.toNat))
          | none => .ofVal (.jstr "NaN")
  | .int =>
    let o := mergeOpts (DEFAULT_FORMAT_OPTIONS .number) opt
    fun v _ _ =>
      if isEmptyTk v then dfltDisplay o.dflt
      else
        match jsParseInt (jsToStrVal v) o.radix with
        | some i => .ofVal (.jnum i)
        | none => .nanNum
  | .money =>
    let o := mergeOpts (DEFAULT_FORMAT_OPTIONS .money) opt
    fun v _ _ =>
      if isEmptyTk v then dfltDisplay o.dflt
      else
        match renderPriceM v with
        | some str => .ofVal (.jstr str)
        | none => .ofVal v
  | .constant =>
    let o := mergeOpts (DEFAULT_FORMAT_OPTIONS .constant) opt
    fun v _ _ =>
      match o.origin with
      | some tbl =>
        (match (tbl.find? (fun p => p.1 == v)).map (fun p => p.2) with
         | some nm => .ofVal (.jstr nm)
         | none => .ofVal .jundef)
      | none => .ofVal v
  | .join => fun v _ _ => .ofVal v

/-- Display of a rendered element inside `Array.prototype.join`. -/
def dvalJoinStr : DVal → String
  | .ofVal v => joinElemStr v
  | .nanNum => "NaN"
  | .tooltip _ _ => "[object Object]"

def lookupJoinVal (record : Payload) (k : String) : JVal :=
  match record.lookup k with
  | none => .jstr ""
  | some .jnull => .jstr ""
  | some .jundef => .jstr ""
  | some v => v

def joinKeys (w : JoinWith) : List String :=
  match w with
  | .ofStr s => if s = "" then [] else [s]
  | .ofList l => l

/-- `DEFAULT_FORMAT_RENDER_FACTORY` with the `join` entry: concatenate
the value with the named record fields (`record[key] ?? ''`), optional
named sub-format applied to each joined value (the sub-format factory gets
`null` options, exactly as `formatGenerate` does for a bare name). -/
def formatFactory (n : FName) (opt : Option FmtOpt) : Render :=
  match n with
  | .join =>
    let o := mergeOpts (DEFAULT_FORMAT_OPTIONS .join) opt
    let keys := joinKeys (o.joinWith.getD (.ofStr ""))
    let sep := o.sep.getD "-"
    fun v record _ =>
      let values := v :: keys.map (lookupJoinVal record)
      match o.subFmt with
      | none => .ofVal (.jstr (String.intercalate sep (values.map joinElemStr)))
      | some sub =>
        .ofVal (.jstr (String.intercalate sep
          (values.map (fun el => dvalJoinStr (basicFactory sub none el .nil 0)))))
  | _ => basicFactory n opt

/-- A declared format spec (`ReadFormat`): a bare name or
`[name, params]` (where a runtime `null` params slot is possible). -/
inductive FormatSpec where
  | bare (n : FName)
  | withOpts (n : FName) (o : Option FmtOpt)
deriving DecidableEq

/-- The truncation spec (`EllipsisType`): `true`, a bare name, or
`[name, params]`; `false`/absent is no truncation (`Option` at the use
site). -/
inductive SIdx where
  | start
  | last
  | at_ (i : Int)
deriving DecidableEq

structure EOpt where
  splitBy : Option String := none
  showIndex : Option SIdx := none
deriving DecidableEq

inductive EName where
  | edefault
  | esplit
deriving DecidableEq

inductive EllipsisSpec where
  | etrue
  | bare (n : EName)
  | withOpts (n : EName) (o : Option EOpt)
deriving DecidableEq

/-- The local column options consumed by the render composition
(`LocalOptions`): `dflt` models `default`. -/
structure ColOpts where
  dflt : Option String := none
  format : Option FormatSpec := none
  amend : Bool := false
  ellipsis : Option EllipsisSpec := none

def DEFAULT_EMPTY_VALUE : String := "-"

/-- `formatGenerate` (`useTable.tsx` 199–211): no spec, no render; a
bare name normalizes to `[name, null]`; the factory receives
`\x7b default: options.default, ...params \x7d` when the params slot is
truthy (any object, even empty), and `null` otherwise — so a bare name
passes **no** options and the column default does not reach the
factory. -/
def formatGenerate (info : Option FormatSpec) (options : ColOpts) : Option Render :=
  match info with
  | none => none
  | some (.bare n) => some (formatFactory n none)
  | some (.withOpts n o) =>
    some (formatFactory n
      (match o with
       | some o => some { o with dflt := o.dflt <|> options.dflt }
       | none => none))

def DEFAULT_ELLIPSIS_OPTIONS : EOpt := { splitBy := some "/", showIndex := some .last }

def mergeEOpts (d : EOpt) (o : Option EOpt) : EOpt :=
  match o with
  | none => d
  | some o => { splitBy := o.splitBy <|> d.splitBy, showIndex := o.showIndex <|> d.showIndex }

def dvalIsString : DVal → Bool
  | .ofVal (.jstr _) => true
  | _ => false

/-- `DEFAULT_ELLIPSIS_RENDER_FACTORY` (`useTable.tsx` 221–262).  The
`default` entry wraps the previous render's output (or the raw value) in a
tooltip showing itself.  The `split` entry checks that the **previous
stage's output** is a string, then splits the **raw value** by the
delimiter and shows one segment, with the raw value as the tooltip title;
a non-string previous output falls into the source's unhandled `TODO`
branch (implicit `undefined`), and splitting a non-string raw value would
throw in JS (unreachable in every claim; the model renders `undefined`). -/
def ellipsisFactory (n : EName) (opt : Option EOpt) (prev : Option Render) : Render :=
  match n with
  | .edefault =>
    fun v record i =>
      let d := match prev with
        | some p => p v record i
        | none => .ofVal v
      .tooltip d d
  | .esplit =>
    let o := mergeEOpts DEFAULT_ELLIPSIS_OPTIONS opt
    fun v record i =>
      let pv := match prev with
        | some p => p v record i
        | none => .ofVal v
      if dvalIsString pv then
        match v with
        | .jstr sv =>
          let values := sv.splitOn (o.splitBy.getD "/")
          let seg : Option String :=
            match o.showIndex with
            | some .start => values.head?
            | some .last => values.getLast?
            | some (.at_ i) => if i < 0 then none else values.get? i.toNat
            | none => none
          .tooltip (.ofVal v)
            (match seg with
             | some str => .ofVal (.jstr str)
             | none => .ofVal .jundef)
        | _ => .ofVal .jundef
      else .ofVal (.jundef)

/-- `ellipsisRender` (`useTable.tsx` 269–287): `true` selects the default
entry with `null` options; a bare name likewise; a pair passes its
options. -/
def ellipsisRender (spec : EllipsisSpec) (prev : Option Render) : Render :=
  match spec with
  | .etrue => ellipsisFactory .edefault none prev
  | .bare n => ellipsisFactory n none prev
  | .withOpts n o => ellipsisFactory n o prev

/-- The render-composition slice of `useColumns` (`useTable.tsx`
329–347): resolve the column default (`?? "-"`), build the format render,
fall back to the amend substitution when no format render exists, and wrap
with the truncation render when an ellipsis spec is present.  `none` means
the column ends up with no render function (raw value display). -/
def buildColumnRender (options : ColOpts) : Option Render :=
  let o := { options with dflt := some (options.dflt.getD DEFAULT_EMPTY_VALUE) }
  let r1 := formatGenerate o.format o
  let r2 :=
    if r1.isNone && o.amend then
      some (fun v _ _ => if isEmptyTk v then .ofVal (.jstr (o.dflt.getD "")) else .ofVal v)
    else r1
  match o.ellipsis with
  | some espec => some (ellipsisRender espec r2)
  | none => r2

/-! ### Claim theorems -/

/-- C1.  With sync and cache both enabled, the effective initial query
payload computed at engine initialization (`_initialSearchData`,
`part_000` 78–82) is, key-wise, the declared initial payload overridden by
the cache-decoded payload overridden by the link-decoded payload: any
key's value comes from the link payload if it has the key, else from the
cache payload, else from the declared payload — for every combination of
the three payloads. -/
theorem initial_payload_precedence (sync : SyncMode) (cache : CacheMode)
    (declared cacheP linkP : Payload) (k : String)
    (hs : sync.truthy = true) (hc : cache.truthy = true) :
    (initialSearchData sync cache declared cacheP linkP).lookup k
      = (linkP.lookup k).or ((cacheP.lookup k).or (declared.lookup k)) := by
  unfold initialSearchData
  rw [if_pos hc, if_pos hs, JMembers.lookup_spread, JMembers.lookup_spread]

/-- Witness for C1 at a concrete configuration and payloads: with
`sync = 'url'` and `cache = true`, a key present in all three payloads
resolves to the link value. -/
theorem initial_payload_precedence_witness :
    (SyncMode.url.truthy = true ∧ (CacheMode.ofBool true).truthy = true)
    ∧ (initialSearchData .url (.ofBool true)
        (.cons "a" (.jstr "declared") .nil)
        (.cons "a" (.jstr "cached") .nil)
        (.cons "a" (.jstr "link") .nil)).lookup "a"
      = ((JMembers.cons "a" (.jstr "link") .nil).lookup "a").or
          (((JMembers.cons "a" (.jstr "cached") .nil).lookup "a").or
            ((JMembers.cons "a" (.jstr "declared") .nil).lookup "a")) :=
  ⟨⟨by decide, by decide⟩,
    initial_payload_precedence .url (.ofBool true) _ _ _ "a" (by decide) (by decide)⟩

/-- C2.  For every engine state and every pair of trigger arguments,
passing a query-payload argument makes the stored page 1 after the call,
whatever pagination argument (and page value) accompanies it — the
query-driven reset is applied after the pagination-driven page decision
(`part_000` 102–116). -/
theorem trigger_query_resets_page {α ε : Type} (cfg : SearchConfig)
    (st : EngineState α) (sd : Payload) (pagination? : Option PageQuery)
    (outcome : Except ε α) :
    (triggerRun cfg st (some sd) pagination? outcome).state.pagination.page = 1 := by
  cases pagination? <;> cases outcome <;> rfl

/-- C3.  Calling the trigger with only a pagination argument keeps the
current page exactly when the argument's pageSize equals the current one
(adopting the argument's page) and resets the page to 1 otherwise; the
argument's pageSize is adopted in both cases (`part_000` 104–112). -/
theorem trigger_pagination_pageSize_law {α ε : Type} (cfg : SearchConfig)
    (st : EngineState α) (pg : PageQuery) (outcome : Except ε α) :
    (triggerRun cfg st none (some pg) outcome).state.pagination
      = ⟨if st.pagination.pageSize = pg.pageSize then pg.page else 1, pg.pageSize⟩ := by
  cases outcome <;> rfl

/-- C4.  For every trigger invocation, whether the fetch resolves or
rejects: the loading flag ends cleared, the storage world ends exactly as
`storageFunc` (codec + storage adapters, honouring the configured
sync/cache mode) leaves it for the current query payload, and the promise
returned to the caller carries the fetch's own outcome — a rejection is
not caught by the engine (`part_000` 117–125). -/
theorem trigger_settlement_persists_and_propagates {α ε : Type}
    (cfg : SearchConfig) (st : EngineState α) (searchData? : Option Payload)
    (pagination? : Option PageQuery) (outcome : Except ε α) :
    (triggerRun cfg st searchData? pagination? outcome).state.loading = false
    ∧ (triggerRun cfg st searchData? pagination? outcome).state.store
        = storageFunc cfg st.store (argUpdate st searchData? pagination?).searchData
    ∧ (triggerRun cfg st searchData? pagination? outcome).returned
        = outcome.map (fun _ => ()) := by
  cases searchData? <;> cases pagination? <;> cases outcome <;> exact ⟨rfl, rfl, rfl⟩

/-- C10.  Invoking the trigger with no arguments leaves the stored query
payload and the stored pagination unchanged, and issues the fetch with
exactly the stored payload spread with the stored pagination spread with
the static payload (`part_000` 102–126, line 118). -/
theorem trigger_no_args_frame {α ε : Type} (cfg : SearchConfig)
    (st : EngineState α) (outcome : Except ε α) :
    (triggerRun cfg st none none outcome).state.searchData = st.searchData
    ∧ (triggerRun cfg st none none outcome).state.pagination = st.pagination
    ∧ (triggerRun cfg st none none outcome).request
        = JMembers.spread (JMembers.spread st.searchData (pagPayload st.pagination))
            cfg.staticSearchData := by
  cases outcome <;> exact ⟨rfl, rfl, rfl⟩

/-- C6 (code bug).  The `number` and `int` format factories wrap their
body in `try/catch` with `return value` in the handler — the documented
intent that a parse failure returns the original raw value — but
`Number.parseFloat`/`parseInt` do not throw on unparsable input: they
return `NaN`, which flows through `toFixed` as the corrupted display
string `"NaN"` (for `number`) or the number `NaN` (for `int`) instead of
the original value (`useTable.tsx` 126–148). -/
theorem number_parse_failure_renders_NaN :
    formatFactory .number none (.jstr "abc") .nil 0 = .ofVal (.jstr "NaN")
    ∧ formatFactory .int none (.jstr "abc") .nil 0 = .nanNum
    ∧ formatFactory .number none (.jstr "abc") .nil 0 ≠ .ofVal (.jstr "abc") := by
  exact ⟨by decide, by decide, by decide⟩

/-- C9 counterexample.  A bare-name format spec (here `format: "number"`
with the column default left to the `"-"` placeholder) does **not** hand
the column default to the formatter: `formatGenerate` passes `null`
options for a bare name (`_format[1] ? \x7b default: … \x7d : null`), so an
empty input renders `undefined`, not the column default
(`useTable.tsx` 199–211, 329–340). -/
theorem bare_format_ignores_column_default :
    (buildColumnRender ⟨none, some (.bare .number), false, none⟩).map
        (fun r => r (.jstr "") .nil 0)
      = some (.ofVal .jundef)
    ∧ (buildColumnRender ⟨none, some (.bare .number), false, none⟩).map
        (fun r => r (.jstr "") .nil 0)
      ≠ some (.ofVal (.jstr DEFAULT_EMPTY_VALUE)) := by
  exact ⟨by decide, by decide⟩

/-- C9 (amended).  When the format spec is name-plus-params (any params
object, even empty) and the params supply no explicit `default`, the
constructed format render receives the column's own default (itself
defaulting to `"-"`), so an empty input renders as the column default;
a bare-name spec, by contrast, passes `null` options and an empty input
renders `undefined`. -/
theorem format_options_default_fallback (params : FmtOpt) (colD : Option String)
    (am : Bool) (hd : params.dflt = none) :
    (buildColumnRender ⟨colD, some (.withOpts .number (some params)), am, none⟩).map
        (fun r => r (.jstr "") .nil 0)
      = some (.ofVal (.jstr (colD.getD DEFAULT_EMPTY_VALUE)))
    ∧ (buildColumnRender ⟨colD, some (.bare .number), am, none⟩).map
        (fun r => r (.jstr "") .nil 0)
      = some (.ofVal .jundef) := by
  constructor
  · simp [buildColumnRender, formatGenerate, formatFactory, basicFactory,
      mergeOpts, DEFAULT_FORMAT_OPTIONS, dfltDisplay, isEmptyTk, hd]
  · simp [buildColumnRender, formatGenerate, formatFactory, basicFactory,
      mergeOpts, DEFAULT_FORMAT_OPTIONS, dfltDisplay, isEmptyTk]

/-- Witness for C9's amended statement: empty params with column default
`"-"` render an empty value as `"-"`. -/
theorem format_options_default_fallback_witness :
    ({} : FmtOpt).dflt = none
    ∧ (buildColumnRender ⟨some "-", some (.withOpts .number (some {})), false, none⟩).map
        (fun r => r (.jstr "") .nil 0)
      = some (.ofVal (.jstr ((some "-").getD DEFAULT_EMPTY_VALUE))) :=
  ⟨rfl, (format_options_default_fallback {} (some "-") false rfl).1⟩

/-- C7 counterexample.  `encodeQueryData` computes the filtered `_query`
but the `query`-format branch stringifies the **unfiltered** `queryData`
(`part_000` line 155): a payload with a non-useful (empty-string) entry
keeps that entry in the encoded output (`a=`), unlike the encoding of its
filtered copy. -/
theorem encode_drops_nonuseful_counterexample :
    isUsefulValue (.jstr "") = false
    ∧ encodeQueryData (.cons "a" (.jstr "") (.cons "b" (.jstr "x") .nil)) .query
        = "a=&b=x"
    ∧ encodeQueryData
        (filterUseful (.cons "a" (.jstr "") (.cons "b" (.jstr "x") .nil))) .query
        = "b=x"
    ∧ encodeQueryData (.cons "a" (.jstr "") (.cons "b" (.jstr "x") .nil)) .query
        ≠ encodeQueryData
            (filterUseful (.cons "a" (.jstr "") (.cons "b" (.jstr "x") .nil))) .query := by
  exact ⟨by decide, by decide, by decide, by decide⟩

/-- C7 (amended).  For the `base64` format the encoded output does drop
every non-useful entry (it encodes exactly the filtered payload), and for
**both** formats the empty string is returned exactly when no useful entry
remains; in the `query` format, however, non-useful entries are only
consulted for that emptiness check — the serialized output is built from
the unfiltered payload. -/
theorem encode_filter_amended :
    (∀ p : Payload, encodeQueryData p .base64 = encodeQueryData (filterUseful p) .base64)
    ∧ (∀ (p : Payload) (fmt : Fmt), filterUseful p = .nil → encodeQueryData p fmt = "") := by
  constructor
  · intro p
    by_cases h : filterUseful p = .nil
    · rw [encodeQueryData, if_pos h, encodeQueryData,
        if_pos (by rw [filterUseful_idem]; exact h)]
    · rw [encodeQueryData, if_neg h, encodeQueryData,
        if_neg (by rw [filterUseful_idem]; exact h)]
      rw [filterUseful_idem]
  · intro p fmt h
    rw [encodeQueryData.eq_def, if_pos h]

/-- Witness for C7's amended statement. -/
theorem encode_filter_amended_witness :
    (filterUseful (.cons "a" .jnull .nil) = .nil
      ∧ encodeQueryData (.cons "a" .jnull .nil) .query = "")
    ∧ encodeQueryData (.cons "b" (.jstr "x") .nil) .base64
        = encodeQueryData (filterUseful (.cons "b" (.jstr "x") .nil)) .base64 :=
  ⟨⟨by decide, encode_filter_amended.2 _ _ (by decide)⟩,
    encode_filter_amended.1 _⟩

/-- C8 counterexample.  In the `query` format branch,
`decodeURIComponent(data)` runs outside any `try` (`part_000` line 173),
so a malformed percent-encoding such as `"%"` makes `decodeQueryData`
throw a `URIError` to its caller — refuting "decode never throws" as a
statement about every input string. -/
theorem decode_query_malformed_throws :
    decodeQueryData "%" .query = .thrown := by decide

/-- C8 (amended).  For the `base64` format decode never throws: empty
input yields the empty payload (as it does for both formats), and any
failure of the `atob`/`decodeURIComponent`/`JSON.parse` pipeline is
caught, reported as the non-fatal warning, and yields the empty payload.
For the `query` format, a failing `decodeURIComponent` propagates as a
thrown `URIError`. -/
theorem decode_failure_behavior :
    (∀ data : String, decodeQueryData data .base64 ≠ .thrown)
    ∧ (∀ fmt : Fmt, decodeQueryData "" fmt = .ok (.jobj .nil) false)
    ∧ (∀ data : String, ¬ data = "" → base64DecodeChain data = none →
        decodeQueryData data .base64 = .ok (.jobj .nil) true)
    ∧ (∀ data : String, ¬ data = "" → decodeURIComponentStr data = none →
        decodeQueryData data .query = .thrown) := by
  refine ⟨?_, ?_, ?_, ?_⟩
  · intro data
    by_cases h : data = ""
    · subst h; decide
    · rw [decodeQueryData, if_neg h]
      cases hch : base64DecodeChain data <;> simp [hch]
  · intro fmt
    cases fmt <;> rfl
  · intro data h hch
    rw [decodeQueryData, if_neg h]
    simp [hch]
  · intro data h hch
    rw [decodeQueryData, if_neg h]
    simp [hch]

/-- Witness for C8's amended statement: garbage base64 input is warned
about and decoded as the empty payload, and the empty string decodes to
the empty payload. -/
theorem decode_failure_behavior_witness :
    (¬ "!!!" = "" ∧ base64DecodeChain "!!!" = none
      ∧ decodeQueryData "!!!" .base64 = .ok (.jobj .nil) true)
    ∧ decodeQueryData "" .query = .ok (.jobj .nil) false :=
  ⟨⟨by decide, by decide, decode_failure_behavior.2.2.1 "!!!" (by decide) (by decide)⟩,
    decode_failure_behavior.2.1 .query⟩

/-! ### C5: the base64 round-trip -/

theorem b64encode_ne_nil : ∀ bs : List Nat, bs ≠ [] → b64encode bs ≠ []
  | [], h => absurd rfl h
  | [x], _ => by rw [b64encode]; simp
  | [x, y], _ => by rw [b64encode]; simp
  | x :: y :: z :: rest, _ => by rw [b64encode]; simp

theorem encodeURIChar_ne_nil (c : Char) : encodeURIChar c ≠ [] := by
  rw [encodeURIChar]
  split_ifs with h
  · simp
  · obtain ⟨b, bs, hbs⟩ := utf8Bytes_ne_nil c
    rw [hbs]
    simp [pctBytes, pctByte]

theorem encodeURIList_ne_nil (l : List Char) (h : l ≠ []) : encodeURIList l ≠ [] := by
  cases l with
  | nil => exact absurd rfl h
  | cons c tl =>
    rw [encodeURIList]
    simp [encodeURIChar_ne_nil]

theorem string_mk_ne_empty (l : List Char) (h : l ≠ []) : String.mk l ≠ "" := by
  intro he
  exact h (by simpa using congrArg String.data he)

/-- A percent-free string passes through `decodeURIComponent`
unchanged. -/
theorem decodeURIComponentStr_of_no_pct (s : String) (h : ∀ c ∈ s.data, c ≠ '%') :
    decodeURIComponentStr s = some s := by
  unfold decodeURIComponentStr
  rw [decodeURIList_of_no_pct s.data h]
  cases s with
  | mk data => rfl

/-- `decodeURIComponent (encodeURIComponent s) = s`, string form. -/
theorem decodeURIComponentStr_encode (s : String) :
    decodeURIComponentStr (encodeURIComponentStr s) = some s := by
  unfold decodeURIComponentStr encodeURIComponentStr
  rw [show (String.mk (encodeURIList s.data)).data = encodeURIList s.data from rfl,
    decodeURIList_encode s.data]
  cases s with
  | mk data => rfl

/-- C5 counterexample.  A payload all of whose entries are useful can
still fail the base64 round-trip: `JSON.stringify` prints an `undefined`
**inside an array** as `null` (a nonempty array is a useful value), so
`\x7b a: [undefined] \x7d` decodes back as `\x7b a: [null] \x7d`, not
the original payload (`part_000` 145–177). -/
theorem base64_roundtrip_counterexample :
    allUseful (.cons "a" (.jarr (.cons .jundef .nil)) .nil) = true
    ∧ decodeQueryData
        (encodeQueryData (.cons "a" (.jarr (.cons .jundef .nil)) .nil) .base64) .base64
        = .ok (.jobj (.cons "a" (.jarr (.cons .jnull .nil)) .nil)) false
    ∧ decodeQueryData
        (encodeQueryData (.cons "a" (.jarr (.cons .jundef .nil)) .nil) .base64) .base64
        ≠ .ok (.jobj (.cons "a" (.jarr (.cons .jundef .nil)) .nil)) false := by
  exact ⟨by decide, by decide, by decide⟩

/-- C5 (amended).  For every payload all of whose entries are useful
values **and which contains no `undefined` nested inside its values**
(`JSON.stringify` silently rewrites those), encoding in the base64 format
and then decoding yields exactly the original payload, with no warning and
no exception. -/
theorem base64_roundtrip_on_json_safe (p : Payload)
    (hu : allUseful p = true) (hok : jsonOkM p = true) :
    decodeQueryData (encodeQueryData p .base64) .base64 = .ok (.jobj p) false := by
  have hfp : filterUseful p = p := filterUseful_of_allUseful hu
  cases p with
  | nil => rfl
  | cons k v tl =>
    have hfne : ¬ filterUseful (.cons k v tl) = .nil := by
      rw [hfp]; simp
    rw [encodeQueryData, if_neg hfne, hfp]
    have hJdata : (jsonStringifyObj (.cons k v tl)).data
        = stringifyVal (.jobj (.cons k v tl)) := rfl
    have hJne : (jsonStringifyObj (.cons k v tl)).data ≠ [] := by
      rw [hJdata,
        show stringifyVal (.jobj (.cons k v tl))
          = lcur :: stringifyMembers (.cons k v tl) false from rfl]
      simp
    have hEdata : (encodeURIComponentStr (jsonStringifyObj (.cons k v tl))).data
        = encodeURIList (jsonStringifyObj (.cons k v tl)).data := rfl
    have hBdata : (btoaStr (encodeURIComponentStr (jsonStringifyObj (.cons k v tl)))).data
        = b64encode ((encodeURIComponentStr
            (jsonStringifyObj (.cons k v tl))).data.map Char.toNat) := rfl
    have hBne : btoaStr (encodeURIComponentStr (jsonStringifyObj (.cons k v tl))) ≠ "" := by
      apply string_mk_ne_empty
      apply b64encode_ne_nil
      simp only [ne_eq, List.map_eq_nil_iff]
      rw [hEdata]
      exact encodeURIList_ne_nil _ hJne
    rw [decodeQueryData, if_neg hBne]
    have hchain : base64DecodeChain
        (btoaStr (encodeURIComponentStr (jsonStringifyObj (.cons k v tl))))
        = some (.jobj (.cons k v tl)) := by
      unfold base64DecodeChain
      rw [decodeURIComponentStr_of_no_pct _ (by
        rw [hBdata]
        exact b64encode_no_pct _)]
      rw [Option.some_bind]
      rw [atobStr_btoaStr _ (by
        rw [hEdata]
        intro c hc
        have := encodeURIList_ascii _ c hc
        omega)]
      rw [Option.some_bind, decodeURIComponentStr_encode, Option.some_bind,
        jsonParseStr_stringify _ hok]
    simp [hchain]

/-- Witness for C5's amended statement at a concrete mixed payload. -/
theorem base64_roundtrip_on_json_safe_witness :
    (allUseful (.cons "a" (.jnum 12) (.cons "b" (.jstr "x") .nil)) = true
      ∧ jsonOkM (.cons "a" (.jnum 12) (.cons "b" (.jstr "x") .nil)) = true)
    ∧ decodeQueryData
        (encodeQueryData (.cons "a" (.jnum 12) (.cons "b" (.jstr "x") .nil)) .base64)
        .base64
      = .ok (.jobj (.cons "a" (.jnum 12) (.cons "b" (.jstr "x") .nil))) false :=
  ⟨⟨by decide, by decide⟩,
    base64_roundtrip_on_json_safe _ (by decide) (by decide)⟩

end RBH
